import Mathlib

/-!
Verification of the decode-and-scale pipeline of `src/decode.rs`
(`oddity-video-ffmpeg5`).

The external collaborators (the `Reader`, the ffmpeg codec, the software
scaler and the array converter) are modelled as call-indexed oracles: the
`n`-th call to an external operation returns the `n`-th scripted response.
The `Decoder`'s observable behaviour (which calls it makes, in which order,
and what it returns) is a pure function of those scripts, which is exactly
what the claims are about.  The potentially non-terminating packet loop of
`decode_raw` is given explicit fuel; `none` means the loop was still running
when the fuel ran out (the Rust loop simply has not returned yet).

Single-precision floating point (`f32`), used by `calculate_fit_dims`, is
modelled exactly: an `F32` value is NaN, an infinity, or the exact rational
value of a binary32 number, and each arithmetic operation rounds its exact
rational result to nearest-even at 24 bits of precision, as IEEE 754
prescribes.
-/

namespace OddityVideo

/-! ## Backend error model (ffmpeg `AvError` and the crate `Error`) -/

/-- The `EAGAIN` errno used by ffmpeg to signal "not enough data yet". -/
def EAGAIN : Int := 11

/-- Errors produced by the ffmpeg backend (`ffmpeg::Error`).
`other errno` is `AvError::Other { errno }`; the remaining constructors stand
for the other `ffmpeg::Error` variants the pipeline can observe. -/
inductive AvErr where
  | other (errno : Int)
  | eof
  | streamNotFound
  | generic (code : Nat)
deriving DecidableEq

/-- Modelled from the spec: the crate error type (defined outside
`src/decode.rs`).  Section 7 of the spec lists the kinds: `StreamNotFound`,
`MissingCodecParameters`, `BackendError` wrapping a backend failure, and
Reader I/O errors propagated opaquely, including end-of-stream
(`readExhausted`). -/
inductive Error where
  | streamNotFound
  | missingCodecParameters
  | backendError (e : AvErr)
  | readExhausted
  | ioError (code : Nat)
deriving DecidableEq

/-! ## Frames, packets, time -/

/-- The ffmpeg sentinel for an unset timestamp (`AV_NOPTS_VALUE`). -/
def AV_NOPTS_VALUE : Int := -(2 ^ 63)

/-- A decoded picture buffer.  `pkt_dts` is the decode timestamp of the
packet that produced the frame (`frame->pkt_dts`, what `frame.packet().dts`
reads), `pts` the frame's own presentation timestamp, and `payload` abstracts
the pixel data. -/
structure RawFrame where
  pkt_dts : Int
  pts : Int
  payload : Nat
deriving DecidableEq

/-- A fresh empty frame (`RawFrame::empty()`): no timestamps, no data. -/
def RawFrame.empty : RawFrame :=
  { pkt_dts := AV_NOPTS_VALUE, pts := AV_NOPTS_VALUE, payload := 0 }

/-- A compressed packet as read from the Reader: its decode timestamp (in
the stream's time base until rescaled) and abstract compressed data. -/
structure Packet where
  dts : Int
  payload : Nat
deriving DecidableEq

/-- A rational time base (`AvRational`). -/
structure AvRational where
  num : Int
  den : Int
deriving DecidableEq

/-- Modelled from the spec: the `Timestamp`/`Time` type (defined outside
`src/decode.rs`) is "a pairing of an optional integer tick value and the
time base needed to convert it to wall-clock seconds"; `Time::new` pairs
the two. -/
structure Time where
  value : Option Int
  base : AvRational
deriving DecidableEq

/-- Modelled from the spec: `copy_frame_props` (in the crate's `ffi` module,
outside `src/decode.rs`) "propagates timing/metadata fields from a decoded
(pre-scale) frame to its scaled counterpart", notably the decode timestamp.
The pixel payload of the destination is untouched. -/
def copy_frame_props (src dst : RawFrame) : RawFrame :=
  { dst with pkt_dts := src.pkt_dts, pts := src.pts }

/-- The numeric-array frame produced by the external array-conversion
collaborator (`convert_frame_to_ndarray_rgb24`); its content is abstract. -/
structure NDFrame where
  data : Nat
deriving DecidableEq

/-! ## The decode environment and mutable state

Every external call site in `decode.rs` is an oracle indexed by how many
times that call site has been reached.  `DecState` records those counters
(it is the observable part of the `Decoder`'s mutation), plus `calls`, a
ghost counter of how many `decode_raw` invocations have started. -/

/-- Scripted responses of the external collaborators of `Decoder`. -/
structure DecodeEnv where
  /-- Result of the `n`-th `self.reader.read(stream_index)` call. -/
  read : Nat → Except Error Packet
  /-- Result of the `n`-th `self.decoder.send_packet(..)` call. -/
  send : Nat → Packet → Except AvErr Unit
  /-- Result of the `n`-th `self.decoder.receive_frame(..)` call. -/
  recv : Nat → Except AvErr RawFrame
  /-- Result of the `n`-th `self.scaler.run(frame, ..)` call: the pixel
  content written into the output frame, or a backend error. -/
  scale : Nat → RawFrame → Except AvErr RawFrame
  /-- Result of the `n`-th `convert_frame_to_ndarray_rgb24(..)` call. -/
  convert : Nat → RawFrame → Except AvErr NDFrame
  /-- Result of `self.decoder.send_eof()` during `Drop`. -/
  send_eof : Except AvErr Unit
  /-- Timestamp rebasing performed by `packet.rescale_ts(from, to)`,
  an exact rational rescale done by ffmpeg; opaque to the claims. -/
  rescale : Int → AvRational → AvRational → Int
  /-- The decoder time base fixed at construction. -/
  decoder_time_base : AvRational
  /-- The input stream time base (`stream_time_base()`). -/
  stream_time_base : AvRational

/-- Call counters of the oracles: the `Decoder`'s observable state. -/
structure DecState where
  readIdx : Nat
  sendIdx : Nat
  recvIdx : Nat
  scaleIdx : Nat
  convertIdx : Nat
  calls : Nat
deriving DecidableEq

/-- The state of a freshly constructed decoder: no calls made yet. -/
def DecState.init : DecState :=
  { readIdx := 0, sendIdx := 0, recvIdx := 0, scaleIdx := 0,
    convertIdx := 0, calls := 0 }

/-! ## `decoder_receive_frame` -/

/-- Embedding of `Decoder::decoder_receive_frame`: pull one frame from the
codec; `Ok(Some ..)` on success, `Ok(None)` on `AvError::Other { EAGAIN }`,
and the error (as a backend error) otherwise. -/
def decoder_receive_frame (env : DecodeEnv) (s : DecState) :
    Except Error (Option RawFrame) × DecState :=
  let s' := { s with recvIdx := s.recvIdx + 1 }
  match env.recv s.recvIdx with
  | .ok f => (.ok (some f), s')
  | .error (.other errno) =>
      if errno = EAGAIN then (.ok none, s')
      else (.error (.backendError (.other errno)), s')
  | .error e => (.error (.backendError e), s')

/-! ## `decode_raw` -/

/-- Embedding of the `while frame.is_none()` loop of `Decoder::decode_raw`
together with the scaling tail: read a packet (propagating Reader errors
as-is), rescale its timestamp, feed it to the codec (`send_packet` failure
is a backend error), pull a frame, and loop while the codec signals
`EAGAIN`.  Once a frame is obtained it is run through the scaler and the
source frame's properties are copied onto the scaled output.  `none` means
the fuel ran out with the loop still running. -/
def decode_raw_loop (env : DecodeEnv) :
    Nat → DecState → Option (Except Error RawFrame × DecState)
  | 0, _ => none
  | fuel + 1, s =>
    match env.read s.readIdx with
    | .error e => some (.error e, { s with readIdx := s.readIdx + 1 })
    | .ok p =>
      match env.send s.sendIdx
          { p with dts := env.rescale p.dts env.stream_time_base env.decoder_time_base } with
      | .error e =>
        some (.error (.backendError e),
          { s with readIdx := s.readIdx + 1, sendIdx := s.sendIdx + 1 })
      | .ok _ =>
        match decoder_receive_frame env
            { s with readIdx := s.readIdx + 1, sendIdx := s.sendIdx + 1 } with
        | (.error e, s3) => some (.error e, s3)
        | (.ok (some fr), s3) =>
          match env.scale s3.scaleIdx fr with
          | .error e =>
            some (.error (.backendError e), { s3 with scaleIdx := s3.scaleIdx + 1 })
          | .ok scaled =>
            some (.ok (copy_frame_props fr scaled),
              { s3 with scaleIdx := s3.scaleIdx + 1 })
        | (.ok none, s3) => decode_raw_loop env fuel s3

/-- Embedding of `Decoder::decode_raw` (one call; bumps the ghost call
counter and runs the packet loop). -/
def decode_raw (env : DecodeEnv) (fuel : Nat) (s : DecState) :
    Option (Except Error RawFrame × DecState) :=
  decode_raw_loop env fuel { s with calls := s.calls + 1 }

/-! ## `decode` (timestamped, ndarray feature) -/

/-- Embedding of `Decoder::decode`: run `decode_raw`, build the `Time` from
the frame's packet decode timestamp and the decoder time base, then convert
the frame through the external array converter. -/
def decode (env : DecodeEnv) (fuel : Nat) (s : DecState) :
    Option (Except Error (Time × NDFrame) × DecState) :=
  match decode_raw env fuel s with
  | none => none
  | some (.error e, s1) => some (.error e, s1)
  | some (.ok fr, s1) =>
    let timestamp : Time := { value := some fr.pkt_dts, base := env.decoder_time_base }
    let s2 := { s1 with convertIdx := s1.convertIdx + 1 }
    match env.convert s1.convertIdx fr with
    | .error e => some (.error (.backendError e), s2)
    | .ok arr => some (.ok (timestamp, arr), s2)

/-! ## Iterator forms

`decode_raw_iter` and `decode_iter` are `std::iter::from_fn(move ||
Some(self.decode..()))`: one pull of the iterator performs one decode call
on the shared state and always yields `Some` of its result.  The outer
`Option` is fuel exhaustion of the underlying decode call; the inner
`Option` is the iterator's own yield (`none` would be end of iteration). -/

/-- One pull of the `decode_raw_iter` iterator. -/
def decode_raw_iter_next (env : DecodeEnv) (fuel : Nat) (s : DecState) :
    Option (Option (Except Error RawFrame) × DecState) :=
  (decode_raw env fuel s).map fun rs => (some rs.1, rs.2)

/-- One pull of the `decode_iter` iterator. -/
def decode_iter_next (env : DecodeEnv) (fuel : Nat) (s : DecState) :
    Option (Option (Except Error (Time × NDFrame)) × DecState) :=
  (decode env fuel s).map fun rs => (some rs.1, rs.2)

/-! ## Teardown drain (`impl Drop for Decoder`) -/

/-- The drain bound of `Drop::drop` (`MAX_DRAIN_ITERATIONS`). -/
def MAX_DRAIN_ITERATIONS : Nat := 100

/-- The `for _ in 0..MAX_DRAIN_ITERATIONS` drain loop: each iteration makes
one pull attempt and breaks on the first attempt whose result is `Err`.
Returns the number of pull attempts performed. -/
def drain_loop (env : DecodeEnv) :
    Nat → DecState → Nat → Nat × DecState
  | 0, s, attempts => (attempts, s)
  | n + 1, s, attempts =>
    match decoder_receive_frame env s with
    | (.error _, s') => (attempts + 1, s')
    | (.ok _, s') => drain_loop env n s' (attempts + 1)

/-- Embedding of `Drop::drop`: send end-of-stream; if accepted, drain up to
`MAX_DRAIN_ITERATIONS` pull attempts.  Total: returns the number of pull
attempts performed (and the final state); no error escapes. -/
def drop_decoder (env : DecodeEnv) (s : DecState) : Nat × DecState :=
  match env.send_eof with
  | .ok _ => drain_loop env MAX_DRAIN_ITERATIONS s 0
  | .error _ => (0, s)

/-! ## Exact IEEE-754 binary32 model

A finite `f32` is represented by its exact significand at the fixed scale
`2 ^ -149` (the smallest subnormal): the value of `finite sig` is
`sig / 2 ^ 149`.  Every binary32 number is an integer multiple of
`2 ^ -149`, so this representation is exact, and all rounding is integer
arithmetic, which the kernel can evaluate.  Rounding of a positive exact
fraction `a / b` proceeds exactly as the standard prescribes: find the
binade exponent `e` (clamped at `-126` for subnormals), scale to a
significand, round to nearest with ties to even, and scale back.  Results
at or above `2 ^ 128` overflow to infinity. -/

/-- Decide `2 ^ e ≤ a / b` for a positive fraction by cross-multiplying
(one of the two exponents below is always zero). -/
def le_pow2 (e : Int) (a b : Int) : Bool :=
  b * 2 ^ e.toNat ≤ a * 2 ^ (-e).toNat

/-- Search downwards from exponent `e` for the largest exponent `e'` with
`2 ^ e' ≤ a / b`; `fuel` bounds the search. -/
def findExpDown (a b : Int) : Nat → Int → Int
  | 0, e => e
  | fuel + 1, e => if le_pow2 e a b then e else findExpDown a b fuel (e - 1)

/-- The binade exponent of the positive fraction `a / b` within the `f32`
range: the largest `e ≥ -127` with `2 ^ e ≤ a / b`, or `-127` if none. -/
def findExp (a b : Int) : Int := findExpDown a b 254 127

/-- Round the fraction `n / d` (with `d > 0`) to the nearest integer, ties
to even. -/
def rneFrac (n d : Int) : Int :=
  let q := n.ediv d
  let r := n.emod d
  if 2 * r < d then q
  else if d < 2 * r then q + 1
  else if q % 2 = 0 then q else q + 1

/-- Round the positive fraction `a / b` to the binary32 grid (unbounded
above), returning the significand at scale `2 ^ -149`: round to nearest
even at 24 bits of precision in the binade of `a / b`, with the subnormal
grid `2 ^ -149` below `2 ^ -126`. -/
def roundPosSig (a b : Int) : Int :=
  let e := max (findExp a b) (-126)
  let k := 23 - e
  let m := rneFrac (a * 2 ^ k.toNat) (b * 2 ^ (-k).toNat)
  m * 2 ^ (e + 126).toNat

/-- An `f32` value: NaN, a signed infinity, or a finite value whose exact
rational value is `sig / 2 ^ 149`. -/
inductive F32 where
  | nan
  | inf (neg : Bool)
  | finite (sig : Int)
deriving DecidableEq

/-- The exact rational value of a finite `f32` (junk on NaN/infinity). -/
def F32.val : F32 → ℚ
  | .finite sig => (sig : ℚ) / 2 ^ 149
  | _ => 0

/-- Round the positive fraction `a / b` to `f32`, overflowing to infinity
at `2 ^ 128` (significand `2 ^ 277`). -/
def F32.ofPosFrac (a b : Int) : F32 :=
  let s := roundPosSig a b
  if 2 ^ 277 ≤ s then .inf false else .finite s

/-- Negate an `f32`. -/
def F32.neg : F32 → F32
  | .nan => .nan
  | .inf s => .inf (!s)
  | .finite sig => .finite (-sig)

/-- The `u32 as f32` conversion (round to nearest even). -/
def F32.ofNat (n : Nat) : F32 :=
  if n = 0 then .finite 0 else .ofPosFrac n 1

/-- The `i32 as f32` conversion (round to nearest even). -/
def F32.ofInt (i : Int) : F32 :=
  if i = 0 then .finite 0
  else if 0 < i then .ofPosFrac i 1
  else .neg (.ofPosFrac (-i) 1)

/-- IEEE `f32` division: quotients are correctly rounded; division of a
nonzero finite by zero gives a signed infinity, `0 / 0` gives NaN. -/
def F32.div : F32 → F32 → F32
  | .nan, _ => .nan
  | _, .nan => .nan
  | .inf _, .inf _ => .nan
  | .inf s, .finite sig => .inf (xor s (decide (sig < 0)))
  | .finite _, .inf _ => .finite 0
  | .finite a, .finite b =>
    if b = 0 then (if a = 0 then .nan else .inf (decide (a < 0)))
    else if a = 0 then .finite 0
    else
      let m := F32.ofPosFrac a.natAbs b.natAbs
      if xor (decide (a < 0)) (decide (b < 0)) then m.neg else m

/-- IEEE `f32` multiplication: products are correctly rounded; infinity
times zero gives NaN. -/
def F32.mul : F32 → F32 → F32
  | .nan, _ => .nan
  | _, .nan => .nan
  | .inf s, .inf t => .inf (xor s t)
  | .inf s, .finite sig =>
    if sig = 0 then .nan else .inf (xor s (decide (sig < 0)))
  | .finite sig, .inf t =>
    if sig = 0 then .nan else .inf (xor t (decide (sig < 0)))
  | .finite a, .finite b =>
    if a = 0 ∨ b = 0 then .finite 0
    else
      let m := F32.ofPosFrac (a.natAbs * b.natAbs) (2 ^ 298)
      if xor (decide (a < 0)) (decide (b < 0)) then m.neg else m

/-- Rust `f32::min` (IEEE minNum): if one operand is NaN the other is
returned; otherwise the smaller operand. -/
def F32.fmin : F32 → F32 → F32
  | .nan, b => b
  | a, .nan => a
  | .inf s, b => if s then .inf true else b
  | a, .inf s => if s then .inf true else a
  | .finite a, .finite b => .finite (min a b)

/-- Rust saturating `as u32` cast of an `f32`: NaN casts to `0`, values are
truncated toward zero and clamped into `[0, 2 ^ 32 - 1]`. -/
def F32.toU32 : F32 → Nat
  | .nan => 0
  | .inf neg => if neg then 0 else 2 ^ 32 - 1
  | .finite sig =>
    if sig ≤ 0 then 0 else min (sig.ediv (2 ^ 149)).toNat (2 ^ 32 - 1)

/-! ## Resize strategies and `calculate_fit_dims` -/

/-- The resize strategies (`pub enum Resize`). -/
inductive Resize where
  | Exact (w h : Nat)
  | Fit (w h : Nat)
deriving DecidableEq

/-- Embedding of `calculate_fit_dims`: if the frame already fits, return it
unchanged; otherwise scale by `min(w_max / w, h_max / h)` computed in `f32`
and truncate each product with the saturating `as u32` cast. -/
def calculate_fit_dims (dims fit_dims : Nat × Nat) : Nat × Nat :=
  let w := dims.1
  let h := dims.2
  let w_max := fit_dims.1
  let h_max := fit_dims.2
  if w ≤ w_max ∧ h ≤ h_max then (w, h)
  else
    let wf := F32.div (F32.ofNat w_max) (F32.ofNat w)
    let hf := F32.div (F32.ofNat h_max) (F32.ofNat h)
    let f := F32.fmin wf hf
    (F32.toU32 (F32.mul (F32.ofNat w) f), F32.toU32 (F32.mul (F32.ofNat h) f))

/-! ## Construction (`Decoder::from_reader`) -/

/-- An ffmpeg pixel format: `AvPixel::None` ("unknown") or a concrete
format identified abstractly. -/
inductive AvPixel where
  | none
  | fmt (id : Nat)
deriving DecidableEq

/-- What the Reader and the opened codec report during construction. -/
structure InitEnv where
  /-- Result of `reader.best_video_stream_index()`. -/
  best_video_stream_index : Except Error Nat
  /-- Whether `reader.input.stream(index)` is `Some`. -/
  stream_exists : Bool
  /-- Numerator of the stream frame rate rational. -/
  rate_num : Int
  /-- Denominator of the stream frame rate rational. -/
  rate_den : Int
  /-- Result of `codec.decoder().video()`. -/
  open_video : Except AvErr Unit
  /-- The opened decoder's reported native pixel format. -/
  format : AvPixel
  /-- The opened decoder's reported native width. -/
  width : Nat
  /-- The opened decoder's reported native height. -/
  height : Nat
  /-- The opened decoder's time base. -/
  time_base : AvRational
  /-- Result of `AvScaler::get(..)`. -/
  scaler_get : Except AvErr Unit

/-- The fields of a successfully constructed `Decoder` that construction
determines: the stream index, the decoder time base, the scaler
configuration (native format and dimensions to target dimensions), the
native `size`, and the `f32` frame rate. -/
structure DecoderInit where
  reader_stream_index : Nat
  decoder_time_base : AvRational
  scaler_src_format : AvPixel
  scaler_src_dims : Nat × Nat
  scaler_dst_dims : Nat × Nat
  size : Nat × Nat
  frame_rate : F32
deriving DecidableEq

/-- Embedding of `Decoder::from_reader`: resolve the best video stream,
require the stream to exist, derive the `f32` frame rate, open the video
decoder, resolve the target dimensions from the optional `Resize` (before
any validation), fail with `MissingCodecParameters` if the native pixel
format is unknown or a native dimension is zero, and finally construct the
scaler from the native format and dimensions to the target dimensions. -/
def from_reader (env : InitEnv) (resize : Option Resize) :
    Except Error DecoderInit :=
  match env.best_video_stream_index with
  | .error e => .error e
  | .ok idx =>
    if env.stream_exists then
      let frame_rate := F32.div (F32.ofInt env.rate_num) (F32.ofInt env.rate_den)
      match env.open_video with
      | .error e => .error (.backendError e)
      | .ok _ =>
        let rdims :=
          match resize with
          | some (.Exact w h) => (w, h)
          | some (.Fit w h) => calculate_fit_dims (env.width, env.height) (w, h)
          | none => (env.width, env.height)
        if env.format = .none ∨ env.width = 0 ∨ env.height = 0 then
          .error .missingCodecParameters
        else
          match env.scaler_get with
          | .error e => .error (.backendError e)
          | .ok _ =>
            .ok
              { reader_stream_index := idx
                decoder_time_base := env.time_base
                scaler_src_format := env.format
                scaler_src_dims := (env.width, env.height)
                scaler_dst_dims := rdims
                size := (env.width, env.height)
                frame_rate := frame_rate }
    else .error (.backendError .streamNotFound)

/-- The resize resolution step of `from_reader` (lines 242-249 of
`decode.rs`): `Exact` overrides, `Fit` goes through `calculate_fit_dims`,
and no resize keeps the native dimensions. -/
def resolve_dims (env : InitEnv) (resize : Option Resize) : Nat × Nat :=
  match resize with
  | some (.Exact w h) => (w, h)
  | some (.Fit w h) => calculate_fit_dims (env.width, env.height) (w, h)
  | none => (env.width, env.height)

/-! ## Derived notions used in theorem statements -/

/-- Advance the read, send and receive counters by `n` (the effect of `n`
EAGAIN rounds of the `decode_raw` loop). -/
def DecState.bump (s : DecState) (n : Nat) : DecState :=
  { s with readIdx := s.readIdx + n, sendIdx := s.sendIdx + n,
           recvIdx := s.recvIdx + n }

/-- Whether the `j`-th scripted `receive_frame` response makes a pull
attempt fail (an error other than `EAGAIN`), mirroring the error branch of
`decoder_receive_frame`. -/
def recvAttemptErr (env : DecodeEnv) (j : Nat) : Bool :=
  match env.recv j with
  | .ok _ => false
  | .error (.other errno) => if errno = EAGAIN then false else true
  | .error _ => true

/-! ## Sample environments used by witnesses -/

/-- A decode environment for a codec that needs two packets per frame: the
first pull signals EAGAIN, the second yields a frame; reads, sends, scaling
and conversion succeed.  The decoded frame and the scaler output carry
distinct timestamps and payloads, so the property copy is observable. -/
def envTwoPacket : DecodeEnv :=
  { read := fun i => .ok { dts := Int.ofNat i, payload := i }
    send := fun _ _ => .ok ()
    recv := fun i =>
      if i = 0 then .error (.other EAGAIN)
      else .ok { pkt_dts := 77, pts := 99, payload := 3 }
    scale := fun _ _ => .ok { pkt_dts := AV_NOPTS_VALUE, pts := AV_NOPTS_VALUE, payload := 42 }
    convert := fun _ fr => .ok { data := fr.payload }
    send_eof := .ok ()
    rescale := fun t _ _ => t
    decoder_time_base := { num := 1, den := 90000 }
    stream_time_base := { num := 1, den := 1000 } }

/-- A decode environment whose Reader is exhausted: every read fails. -/
def envReadExhausted : DecodeEnv :=
  { read := fun _ => .error .readExhausted
    send := fun _ _ => .ok ()
    recv := fun _ => .error (.other EAGAIN)
    scale := fun _ _ => .ok RawFrame.empty
    convert := fun _ fr => .ok { data := fr.payload }
    send_eof := .ok ()
    rescale := fun t _ _ => t
    decoder_time_base := { num := 1, den := 90000 }
    stream_time_base := { num := 1, den := 1000 } }

/-- A decode environment whose codec, once sent end-of-stream, yields three
buffered frames and then fails the fourth pull. -/
def envDrainThree : DecodeEnv :=
  { read := fun _ => .error .readExhausted
    send := fun _ _ => .ok ()
    recv := fun i =>
      if i < 3 then .ok { pkt_dts := Int.ofNat i, pts := Int.ofNat i, payload := i }
      else .error .eof
    scale := fun _ _ => .ok RawFrame.empty
    convert := fun _ fr => .ok { data := fr.payload }
    send_eof := .ok ()
    rescale := fun t _ _ => t
    decoder_time_base := { num := 1, den := 90000 }
    stream_time_base := { num := 1, den := 1000 } }

/-- A construction environment whose opened decoder reports pixel format
"unknown" but otherwise valid parameters. -/
def initEnvUnknownFormat : InitEnv :=
  { best_video_stream_index := .ok 0
    stream_exists := true
    rate_num := 25
    rate_den := 1
    open_video := .ok ()
    format := .none
    width := 1920
    height := 1080
    time_base := { num := 1, den := 1000 }
    scaler_get := .ok () }

/-- A construction environment whose opened decoder reports width `0`. -/
def initEnvZeroWidth : InitEnv :=
  { best_video_stream_index := .ok 0
    stream_exists := true
    rate_num := 25
    rate_den := 1
    open_video := .ok ()
    format := .fmt 7
    width := 0
    height := 1080
    time_base := { num := 1, den := 1000 }
    scaler_get := .ok () }

/-- A construction environment reporting valid codec parameters. -/
def initEnvValid : InitEnv :=
  { best_video_stream_index := .ok 0
    stream_exists := true
    rate_num := 25
    rate_den := 1
    open_video := .ok ()
    format := .fmt 7
    width := 1920
    height := 1080
    time_base := { num := 1, den := 1000 }
    scaler_get := .ok () }

/-! ## Small facts about the saturating cast -/

/-- The saturating `as u32` cast always lands in the `u32` range. -/
theorem F32.toU32_le (x : F32) : F32.toU32 x ≤ 2 ^ 32 - 1 := by
  cases x with
  | nan => simp [F32.toU32]
  | inf neg => cases neg <;> simp [F32.toU32]
  | finite sig =>
    simp only [F32.toU32]
    split
    · exact Nat.zero_le _
    · exact Nat.min_le_right _ _

/-! ## Claim C7 -/

/-- C7: for all native dimensions `(w, h)` and `Fit (tw, th)` with
`tw ≥ w` and `th ≥ h`, `calculate_fit_dims` returns exactly `(w, h)`:
`Fit` never upscales. -/
theorem claim_C7_fit_never_upscales (w h tw th : Nat)
    (hw : w ≤ tw) (hh : h ≤ th) :
    calculate_fit_dims (w, h) (tw, th) = (w, h) := by
  simp [calculate_fit_dims, hw, hh]

/-- Witness for C7 at the spec's concrete scenario `(640, 480)` fit into
`(800, 600)`. -/
theorem claim_C7_witness :
    640 ≤ 800 ∧ 480 ≤ 600 ∧
      calculate_fit_dims (640, 480) (800, 600) = (640, 480) :=
  ⟨by decide, by decide,
    claim_C7_fit_never_upscales 640 480 800 600 (by decide) (by decide)⟩

/-! ## Claim C9 -/

/-- Helper: on successful construction, the scaler target dimensions are
exactly what the resize resolution step computed. -/
theorem from_reader_ok_dst_dims (env : InitEnv) (resize : Option Resize)
    (dec : DecoderInit) (h : from_reader env resize = .ok dec) :
    dec.scaler_dst_dims = resolve_dims env resize := by
  unfold from_reader at h
  cases hb : env.best_video_stream_index <;> rw [hb] at h
  · simp at h
  · by_cases hs : env.stream_exists
    · simp only [hs, if_true] at h
      cases ho : env.open_video <;> rw [ho] at h
      · simp at h
      · by_cases hf : env.format = AvPixel.none ∨ env.width = 0 ∨ env.height = 0
        · simp [hf] at h
        · simp only [hf, if_false] at h
          cases hg : env.scaler_get <;> rw [hg] at h
          · simp at h
          · cases h
            rfl
    · simp [hs] at h

/-- C9: construction with `Resize::Exact (tw, th)` resolves the scaler
target dimensions to exactly `(tw, th)` for every environment, and
construction with no resize resolves them to the native dimensions. -/
theorem claim_C9_exact_and_default_dims :
    (∀ (env : InitEnv) (tw th : Nat) (dec : DecoderInit),
      from_reader env (some (.Exact tw th)) = .ok dec →
        dec.scaler_dst_dims = (tw, th)) ∧
    (∀ (env : InitEnv) (dec : DecoderInit),
      from_reader env none = .ok dec →
        dec.scaler_dst_dims = (env.width, env.height)) := by
  constructor
  · intro env tw th dec h
    exact from_reader_ok_dst_dims env (some (.Exact tw th)) dec h
  · intro env dec h
    exact from_reader_ok_dst_dims env none dec h

/-- Witness for C9: a valid environment constructed with `Exact (800, 600)`
and with no resize. -/
theorem claim_C9_witness :
    (∃ dec, from_reader initEnvValid (some (.Exact 800 600)) = .ok dec ∧
      dec.scaler_dst_dims = (800, 600)) ∧
    (∃ dec, from_reader initEnvValid none = .ok dec ∧
      dec.scaler_dst_dims = (1920, 1080)) := by
  constructor
  · refine ⟨_, rfl, ?_⟩
    exact claim_C9_exact_and_default_dims.1 initEnvValid 800 600 _ rfl
  · refine ⟨_, rfl, ?_⟩
    exact claim_C9_exact_and_default_dims.2 initEnvValid _ rfl

/-! ## Claim C6 -/

/-- Helper: invalid reported codec parameters make construction fail with
`MissingCodecParameters`, for every resize choice and every scripted
scaler outcome. -/
theorem from_reader_missing_params (env : InitEnv)
    (resize : Option Resize) (idx : Nat)
    (h1 : env.best_video_stream_index = .ok idx)
    (h2 : env.stream_exists = true)
    (h3 : env.open_video = .ok ())
    (h4 : env.format = .none ∨ env.width = 0 ∨ env.height = 0) :
    from_reader env resize = .error .missingCodecParameters := by
  unfold from_reader
  rw [h1, h3]
  simp [h2, h4]

/-- C6: if the opened codec decoder reports pixel format "unknown" or a
zero width or height, construction fails with `MissingCodecParameters`,
whatever the scripted outcome of scaler construction (the scaler is never
consulted). -/
theorem claim_C6_missing_codec_parameters (env : InitEnv)
    (resize : Option Resize) (idx : Nat)
    (h1 : env.best_video_stream_index = .ok idx)
    (h2 : env.stream_exists = true)
    (h3 : env.open_video = .ok ())
    (h4 : env.format = .none ∨ env.width = 0 ∨ env.height = 0) :
    from_reader env resize = .error .missingCodecParameters :=
  from_reader_missing_params env resize idx h1 h2 h3 h4

/-- Witness for C6: the spec's concrete scenario, a decoder reporting
pixel format "unknown". -/
theorem claim_C6_witness :
    from_reader initEnvUnknownFormat none = .error .missingCodecParameters :=
  claim_C6_missing_codec_parameters initEnvUnknownFormat none 0
    rfl rfl rfl (Or.inl rfl)

/-! ## Claim C10 -/

/-- C10: resize resolution is total and never traps.  For any dimensions in
the `u32` range, `calculate_fit_dims` returns dimensions in the `u32` range
(the saturating cast absorbs the infinity or NaN produced by a division by
a zero native dimension), and construction with a `Fit` resize and a zero
native dimension still fails with `MissingCodecParameters` rather than
crashing. -/
theorem claim_C10_fit_total_zero_dims :
    (∀ w h tw th : Nat, w ≤ 2 ^ 32 - 1 → h ≤ 2 ^ 32 - 1 →
      (calculate_fit_dims (w, h) (tw, th)).1 ≤ 2 ^ 32 - 1 ∧
      (calculate_fit_dims (w, h) (tw, th)).2 ≤ 2 ^ 32 - 1) ∧
    (∀ (env : InitEnv) (tw th idx : Nat),
      env.best_video_stream_index = .ok idx →
      env.stream_exists = true →
      env.open_video = .ok () →
      env.width = 0 ∨ env.height = 0 →
      from_reader env (some (.Fit tw th)) = .error .missingCodecParameters) := by
  constructor
  · intro w h tw th hw hh
    by_cases hc : w ≤ tw ∧ h ≤ th
    · simp only [calculate_fit_dims, hc, if_true]
      exact ⟨hw, hh⟩
    · have h1 := F32.toU32_le ((F32.ofNat w).mul
        (((F32.ofNat tw).div (F32.ofNat w)).fmin ((F32.ofNat th).div (F32.ofNat h))))
      have h2 := F32.toU32_le ((F32.ofNat h).mul
        (((F32.ofNat tw).div (F32.ofNat w)).fmin ((F32.ofNat th).div (F32.ofNat h))))
      simp only [calculate_fit_dims, hc, if_false]
      exact ⟨h1, h2⟩
  · intro env tw th idx h1 h2 h3 h4
    exact from_reader_missing_params env (some (.Fit tw th)) idx h1 h2 h3
      (Or.inr h4)

/-- Witness for C10 at a zero native width: the division by zero inside
`calculate_fit_dims` yields infinity, the cast saturates, and construction
fails gracefully. -/
theorem claim_C10_witness :
    ((calculate_fit_dims (0, 1080) (800, 600)).1 ≤ 2 ^ 32 - 1 ∧
     (calculate_fit_dims (0, 1080) (800, 600)).2 ≤ 2 ^ 32 - 1) ∧
    from_reader initEnvZeroWidth (some (.Fit 800 600)) =
      .error .missingCodecParameters :=
  ⟨claim_C10_fit_total_zero_dims.1 0 1080 800 600 (by decide) (by decide),
   claim_C10_fit_total_zero_dims.2 initEnvZeroWidth 800 600 0
     rfl rfl rfl (Or.inl rfl)⟩

/-! ## Structure of the `decode_raw` loop -/

/-- One loop round whose pull signals EAGAIN just advances the three call
counters and continues with the remaining fuel. -/
theorem decode_raw_loop_step_eagain (env : DecodeEnv) (fuel : Nat)
    (s : DecState) (p : Packet)
    (hp : env.read s.readIdx = .ok p)
    (hs : ∀ q, env.send s.sendIdx q = .ok ())
    (hr : env.recv s.recvIdx = .error (.other EAGAIN)) :
    decode_raw_loop env (fuel + 1) s = decode_raw_loop env fuel (s.bump 1) := by
  simp only [decode_raw_loop, hp, hs, decoder_receive_frame, hr, if_true,
    eq_self_iff_true, DecState.bump]

/-- Bumping by `1` and then by `n` is bumping by `n + 1`. -/
theorem DecState.bump_bump (s : DecState) (n : Nat) :
    (s.bump 1).bump n = s.bump (n + 1) := by
  cases s
  simp [DecState.bump]
  omega

/-- Bumping by `0` changes nothing. -/
theorem DecState.bump_zero (s : DecState) : s.bump 0 = s := by
  cases s
  simp [DecState.bump]

/-- Successive EAGAIN rounds: if the first `n` pulls signal EAGAIN while
reads and sends succeed, the loop consumes `n` reads, sends and pulls and
continues with the remaining fuel. -/
theorem decode_raw_loop_eagain_skip (env : DecodeEnv) (n : Nat) :
    ∀ (s : DecState) (fuel : Nat),
    (∀ i, i < n → env.recv (s.recvIdx + i) = .error (.other EAGAIN)) →
    (∀ i, i < n → ∃ p, env.read (s.readIdx + i) = .ok p) →
    (∀ i, i < n → ∀ q, env.send (s.sendIdx + i) q = .ok ()) →
    decode_raw_loop env (n + fuel) s = decode_raw_loop env fuel (s.bump n) := by
  induction n with
  | zero =>
    intro s fuel _ _ _
    rw [DecState.bump_zero]
    simp
  | succ n ih =>
    intro s fuel hrecv hread hsend
    obtain ⟨p, hp⟩ := hread 0 (Nat.succ_pos n)
    have hstep := decode_raw_loop_step_eagain env (n + fuel) s p
      (by simpa using hp)
      (by simpa using hsend 0 (Nat.succ_pos n))
      (by simpa using hrecv 0 (Nat.succ_pos n))
    rw [Nat.succ_add, hstep, ih (s.bump 1) fuel ?_ ?_ ?_, DecState.bump_bump]
    · intro i hi
      have := hrecv (i + 1) (by omega)
      simpa [DecState.bump, Nat.add_assoc, Nat.add_comm 1 i] using this
    · intro i hi
      have := hread (i + 1) (by omega)
      simpa [DecState.bump, Nat.add_assoc, Nat.add_comm 1 i] using this
    · intro i hi
      have := hsend (i + 1) (by omega)
      simpa [DecState.bump, Nat.add_assoc, Nat.add_comm 1 i] using this

/-! ## Claim C1 -/

/-- C1: the EAGAIN signal from the frame-pull step never surfaces from
`decode_raw`, however many consecutive times it occurs.  After `n` EAGAIN
rounds (with reads and sends succeeding): a successful pull completes the
call with exactly one scaled frame, having consumed exactly `n + 1`
packets; a Reader failure is propagated to the caller as-is; a send
failure surfaces as a backend error; and a pull failure other than EAGAIN
surfaces as a backend error.  In particular (`n = 1`) a codec needing two
packets per frame consumes exactly two packets and returns one frame. -/
theorem claim_C1_eagain_retry (env : DecodeEnv) (s : DecState) (n : Nat)
    (hrecv : ∀ i, i < n → env.recv (s.recvIdx + i) = .error (.other EAGAIN))
    (hread : ∀ i, i < n → ∃ p, env.read (s.readIdx + i) = .ok p)
    (hsend : ∀ i, i < n → ∀ q, env.send (s.sendIdx + i) q = .ok ()) :
    (∀ fr scaled p,
      env.read (s.readIdx + n) = .ok p →
      (∀ q, env.send (s.sendIdx + n) q = .ok ()) →
      env.recv (s.recvIdx + n) = .ok fr →
      env.scale s.scaleIdx fr = .ok scaled →
      decode_raw env (n + 1) s =
        some (.ok (copy_frame_props fr scaled),
          { readIdx := s.readIdx + n + 1, sendIdx := s.sendIdx + n + 1,
            recvIdx := s.recvIdx + n + 1, scaleIdx := s.scaleIdx + 1,
            convertIdx := s.convertIdx, calls := s.calls + 1 })) ∧
    (∀ e, env.read (s.readIdx + n) = .error e →
      decode_raw env (n + 1) s =
        some (.error e,
          { readIdx := s.readIdx + n + 1, sendIdx := s.sendIdx + n,
            recvIdx := s.recvIdx + n, scaleIdx := s.scaleIdx,
            convertIdx := s.convertIdx, calls := s.calls + 1 })) ∧
    (∀ e p, env.read (s.readIdx + n) = .ok p →
      (∀ q, env.send (s.sendIdx + n) q = .error e) →
      decode_raw env (n + 1) s =
        some (.error (.backendError e),
          { readIdx := s.readIdx + n + 1, sendIdx := s.sendIdx + n + 1,
            recvIdx := s.recvIdx + n, scaleIdx := s.scaleIdx,
            convertIdx := s.convertIdx, calls := s.calls + 1 })) ∧
    (∀ e p, env.read (s.readIdx + n) = .ok p →
      (∀ q, env.send (s.sendIdx + n) q = .ok ()) →
      env.recv (s.recvIdx + n) = .error e →
      e ≠ .other EAGAIN →
      decode_raw env (n + 1) s =
        some (.error (.backendError e),
          { readIdx := s.readIdx + n + 1, sendIdx := s.sendIdx + n + 1,
            recvIdx := s.recvIdx + n + 1, scaleIdx := s.scaleIdx,
            convertIdx := s.convertIdx, calls := s.calls + 1 })) := by
  have hcalls : ∀ i, i < n →
      env.recv (({ s with calls := s.calls + 1 } : DecState).recvIdx + i) =
        .error (.other EAGAIN) := fun i hi => hrecv i hi
  have hskip := decode_raw_loop_eagain_skip env n { s with calls := s.calls + 1 } 1
    hcalls (fun i hi => hread i hi) (fun i hi => hsend i hi)
  refine ⟨?_, ?_, ?_, ?_⟩
  · intro fr scaled p hp hsnd hr hsc
    rw [decode_raw, hskip]
    simp only [decode_raw_loop, DecState.bump, hp, hsnd, decoder_receive_frame, hr, hsc]
  · intro e he
    rw [decode_raw, hskip]
    simp only [decode_raw_loop, DecState.bump, he]
  · intro e p hp hsnd
    rw [decode_raw, hskip]
    simp only [decode_raw_loop, DecState.bump, hp, hsnd]
  · intro e p hp hsnd hr hne
    rw [decode_raw, hskip]
    simp only [decode_raw_loop, DecState.bump, hp, hsnd, decoder_receive_frame, hr]
    cases e with
    | other errno =>
      have : errno ≠ EAGAIN := fun hc => hne (by rw [hc])
      simp [this]
    | eof => simp
    | streamNotFound => simp
    | generic code => simp

/-- Witness for C1 at the two-packets-per-frame scenario: one EAGAIN round
(`n = 1`), then a successful pull; `decode_raw` consumes exactly two
packets and returns exactly one scaled frame carrying the source frame's
properties. -/
theorem claim_C1_witness :
    decode_raw envTwoPacket 2 DecState.init =
      some (.ok { pkt_dts := 77, pts := 99, payload := 42 },
        { readIdx := 2, sendIdx := 2, recvIdx := 2, scaleIdx := 1,
          convertIdx := 0, calls := 1 }) := by
  have h := (claim_C1_eagain_retry envTwoPacket DecState.init 1
    (fun i hi => by
      have hi0 : i = 0 := by omega
      subst hi0
      rfl)
    (fun i hi => ⟨_, rfl⟩)
    (fun _ _ _ => rfl)).1
    { pkt_dts := 77, pts := 99, payload := 3 }
    { pkt_dts := AV_NOPTS_VALUE, pts := AV_NOPTS_VALUE, payload := 42 }
    { dts := 1, payload := 1 }
    rfl (fun _ => rfl) rfl rfl
  simpa [copy_frame_props, DecState.init] using h

/-! ## Structure of `decoder_receive_frame` and the teardown drain -/

/-- A pull attempt advances exactly the receive counter. -/
theorem decoder_receive_frame_state (env : DecodeEnv) (s : DecState) :
    (decoder_receive_frame env s).2 = { s with recvIdx := s.recvIdx + 1 } := by
  unfold decoder_receive_frame
  cases h : env.recv s.recvIdx with
  | ok f => rfl
  | error e =>
    cases e with
    | other errno => by_cases hc : errno = EAGAIN <;> simp [hc]
    | eof => rfl
    | streamNotFound => rfl
    | generic code => rfl

/-- A failing scripted pull makes `decoder_receive_frame` return an error. -/
theorem decoder_receive_frame_of_err (env : DecodeEnv) (s : DecState)
    (h : recvAttemptErr env s.recvIdx = true) :
    ∃ e, decoder_receive_frame env s =
      (.error e, { s with recvIdx := s.recvIdx + 1 }) := by
  unfold decoder_receive_frame
  unfold recvAttemptErr at h
  cases hr : env.recv s.recvIdx with
  | ok f => rw [hr] at h; simp at h
  | error e =>
    rw [hr] at h
    cases e with
    | other errno =>
      by_cases hc : errno = EAGAIN
      · simp [hc] at h
      · exact ⟨.backendError (.other errno), by simp [hc]⟩
    | eof => exact ⟨.backendError .eof, rfl⟩
    | streamNotFound => exact ⟨.backendError .streamNotFound, rfl⟩
    | generic code => exact ⟨.backendError (.generic code), rfl⟩

/-- A non-failing scripted pull makes `decoder_receive_frame` return `Ok`
(a frame, or `none` on EAGAIN). -/
theorem decoder_receive_frame_of_ok (env : DecodeEnv) (s : DecState)
    (h : recvAttemptErr env s.recvIdx = false) :
    ∃ v, decoder_receive_frame env s =
      (.ok v, { s with recvIdx := s.recvIdx + 1 }) := by
  unfold decoder_receive_frame
  unfold recvAttemptErr at h
  cases hr : env.recv s.recvIdx with
  | ok f => exact ⟨some f, rfl⟩
  | error e =>
    rw [hr] at h
    cases e with
    | other errno =>
      by_cases hc : errno = EAGAIN
      · exact ⟨none, by simp [hc]⟩
      · simp [hc] at h
    | eof => simp at h
    | streamNotFound => simp at h
    | generic code => simp at h

/-- The drain loop performs at most `acc + n` pull attempts. -/
theorem drain_loop_attempts_le (env : DecodeEnv) :
    ∀ (n : Nat) (s : DecState) (acc : Nat), (drain_loop env n s acc).1 ≤ acc + n := by
  intro n
  induction n with
  | zero =>
    intro s acc
    simp [drain_loop]
  | succ n ih =>
    intro s acc
    rw [drain_loop]
    rcases hr : decoder_receive_frame env s with ⟨r, s1⟩
    cases r with
    | error e =>
      show acc + 1 ≤ acc + (n + 1)
      omega
    | ok v =>
      show (drain_loop env n s1 (acc + 1)).1 ≤ acc + (n + 1)
      have := ih s1 (acc + 1)
      omega

/-- If the first `k` pull attempts succeed and the `(k+1)`-st fails, the
drain loop stops after exactly `k + 1` attempts (for `k` within bound). -/
theorem drain_loop_first_err (env : DecodeEnv) :
    ∀ (k n : Nat) (s : DecState) (acc : Nat), k < n →
      (∀ i, i < k → recvAttemptErr env (s.recvIdx + i) = false) →
      recvAttemptErr env (s.recvIdx + k) = true →
      (drain_loop env n s acc).1 = acc + k + 1 := by
  intro k
  induction k with
  | zero =>
    intro n s acc hkn _ herr
    obtain ⟨m, rfl⟩ : ∃ m, n = m + 1 := ⟨n - 1, by omega⟩
    obtain ⟨e, he⟩ := decoder_receive_frame_of_err env s (by simpa using herr)
    rw [drain_loop, he]
  | succ k ih =>
    intro n s acc hkn hok herr
    obtain ⟨m, rfl⟩ : ∃ m, n = m + 1 := ⟨n - 1, by omega⟩
    obtain ⟨v, hv⟩ := decoder_receive_frame_of_ok env s
      (by simpa using hok 0 (Nat.succ_pos k))
    rw [drain_loop, hv]
    have hrec := ih m { s with recvIdx := s.recvIdx + 1 } (acc + 1) (by omega)
      (fun i hi => by
        have := hok (i + 1) (by omega)
        have harith : s.recvIdx + (i + 1) = s.recvIdx + 1 + i := by omega
        rw [harith] at this
        exact this)
      (by
        have := herr
        have harith : s.recvIdx + (k + 1) = s.recvIdx + 1 + k := by omega
        rw [harith] at this
        exact this)
    show (drain_loop env m { s with recvIdx := s.recvIdx + 1 } (acc + 1)).1 =
      acc + (k + 1) + 1
    rw [hrec]
    omega

/-! ## Claim C2 -/

/-- C2: teardown performs at most `MAX_DRAIN_ITERATIONS = 100` pull
attempts, whatever the codec does (so teardown terminates even if the codec
would yield frames indefinitely), and if end-of-stream is accepted and the
first `k` pull attempts succeed while the `(k+1)`-st fails, exactly `k + 1`
attempts occur; the drop embedding is a total function, so no error
propagates to the caller of destruction. -/
theorem claim_C2_teardown_drain (env : DecodeEnv) (s : DecState) :
    (drop_decoder env s).1 ≤ MAX_DRAIN_ITERATIONS ∧
    (env.send_eof = .ok () →
      ∀ k, k < MAX_DRAIN_ITERATIONS →
        (∀ i, i < k → recvAttemptErr env (s.recvIdx + i) = false) →
        recvAttemptErr env (s.recvIdx + k) = true →
        (drop_decoder env s).1 = k + 1) := by
  constructor
  · unfold drop_decoder
    cases he : env.send_eof with
    | ok u =>
      have := drain_loop_attempts_le env MAX_DRAIN_ITERATIONS s 0
      simpa using this
    | error e => simp
  · intro he k hk hok herr
    unfold drop_decoder
    rw [he]
    have := drain_loop_first_err env k MAX_DRAIN_ITERATIONS s 0 hk hok herr
    simpa using this

/-- Witness for C2 at the spec's concrete scenario: the drain yields three
frames and the fourth pull fails, so exactly `4` pull attempts occur, within
the bound of `100`. -/
theorem claim_C2_witness :
    (drop_decoder envDrainThree DecState.init).1 ≤ MAX_DRAIN_ITERATIONS ∧
    (drop_decoder envDrainThree DecState.init).1 = 4 :=
  ⟨(claim_C2_teardown_drain envDrainThree DecState.init).1,
   (claim_C2_teardown_drain envDrainThree DecState.init).2 rfl 3
     (by decide) (by decide) (by decide)⟩

/-! ## Call-counter facts used for the iterator claims -/

/-- The packet loop never touches the ghost call counter. -/
theorem decode_raw_loop_calls (env : DecodeEnv) :
    ∀ (fuel : Nat) (s : DecState) (r : Except Error RawFrame) (s1 : DecState),
      decode_raw_loop env fuel s = some (r, s1) → s1.calls = s.calls := by
  intro fuel
  induction fuel with
  | zero =>
    intro s r s1 h
    simp [decode_raw_loop] at h
  | succ fuel ih =>
    intro s r s1 h
    rw [decode_raw_loop] at h
    split at h
    · simp only [Option.some.injEq, Prod.mk.injEq] at h
      rw [← h.2]
    · split at h
      · simp only [Option.some.injEq, Prod.mk.injEq] at h
        rw [← h.2]
      · split at h
        case _ e s3 heq =>
          have hs3 : s3.calls = s.calls := by
            have hsnd := congrArg Prod.snd heq
            simp only [decoder_receive_frame_state] at hsnd
            rw [← hsnd]
          simp only [Option.some.injEq, Prod.mk.injEq] at h
          rw [← h.2]
          exact hs3
        case _ fr s3 heq =>
          have hs3 : s3.calls = s.calls := by
            have hsnd := congrArg Prod.snd heq
            simp only [decoder_receive_frame_state] at hsnd
            rw [← hsnd]
          split at h <;>
            (simp only [Option.some.injEq, Prod.mk.injEq] at h; rw [← h.2]; exact hs3)
        case _ s3 heq =>
          have hs3 : s3.calls = s.calls := by
            have hsnd := congrArg Prod.snd heq
            simp only [decoder_receive_frame_state] at hsnd
            rw [← hsnd]
          exact (ih s3 r s1 h).trans hs3

/-- One `decode_raw` call increments the ghost call counter exactly once. -/
theorem decode_raw_calls (env : DecodeEnv) (fuel : Nat) (s : DecState)
    (r : Except Error RawFrame) (s1 : DecState)
    (h : decode_raw env fuel s = some (r, s1)) : s1.calls = s.calls + 1 := by
  unfold decode_raw at h
  exact decode_raw_loop_calls env fuel _ r s1 h

/-- One `decode` call also increments the ghost call counter exactly once
(the conversion step does not touch it). -/
theorem decode_calls (env : DecodeEnv) (fuel : Nat) (s : DecState)
    (r : Except Error (Time × NDFrame)) (s1 : DecState)
    (h : decode env fuel s = some (r, s1)) : s1.calls = s.calls + 1 := by
  unfold decode at h
  split at h
  · simp at h
  case _ e s0 heq =>
    have h0 := decode_raw_calls env fuel s (.error e) s0 heq
    simp only [Option.some.injEq, Prod.mk.injEq] at h
    rw [← h.2]
    exact h0
  case _ fr s0 heq =>
    have h0 := decode_raw_calls env fuel s (.ok fr) s0 heq
    split at h <;>
      (simp only [Option.some.injEq, Prod.mk.injEq] at h; rw [← h.2]; exact h0)

/-! ## Claim C3 (corrected) -/

/-- Counterexample to C3 as stated: with an exhausted Reader, the first
iterator pull yields an error element, yet the next pull still yields a
further element (the iterator never ends; it does not stop after an
error). -/
theorem claim_C3_counterexample :
    decode_raw_iter_next envReadExhausted 1 DecState.init =
      some (some (.error .readExhausted),
        { readIdx := 1, sendIdx := 0, recvIdx := 0, scaleIdx := 0,
          convertIdx := 0, calls := 1 }) ∧
    decode_raw_iter_next envReadExhausted 1
        { readIdx := 1, sendIdx := 0, recvIdx := 0, scaleIdx := 0,
          convertIdx := 0, calls := 1 } =
      some (some (.error .readExhausted),
        { readIdx := 2, sendIdx := 0, recvIdx := 0, scaleIdx := 0,
          convertIdx := 0, calls := 2 }) :=
  ⟨rfl, rfl⟩

/-- C3 (amended): each pull of either iterator form performs exactly one
underlying decode call on the shared `Decoder` state (the ghost call counter
advances by exactly one and the state is threaded through), and whenever the
underlying decode call terminates the pull yields `Some` of its result — the
iterator never signals end of iteration, not even after yielding an error;
stopping at the first error is the consumer's job. -/
theorem claim_C3_iterators_amended (env : DecodeEnv) (fuel : Nat) (s : DecState) :
    (∀ r s1, decode_raw env fuel s = some (r, s1) →
      decode_raw_iter_next env fuel s = some (some r, s1) ∧
        s1.calls = s.calls + 1) ∧
    (∀ r s1, decode env fuel s = some (r, s1) →
      decode_iter_next env fuel s = some (some r, s1) ∧
        s1.calls = s.calls + 1) := by
  constructor
  · intro r s1 h
    refine ⟨?_, decode_raw_calls env fuel s r s1 h⟩
    simp [decode_raw_iter_next, h]
  · intro r s1 h
    refine ⟨?_, decode_calls env fuel s r s1 h⟩
    simp [decode_iter_next, h]

/-- Witness for C3 (amended): with an exhausted Reader the decode call
terminates with an error, the pull yields it as an element, and the call
counter advanced by one — after which a further pull again yields an
element, as the counterexample records. -/
theorem claim_C3_witness :
    decode_raw_iter_next envReadExhausted 1 DecState.init =
      some (some (.error .readExhausted),
        { readIdx := 1, sendIdx := 0, recvIdx := 0, scaleIdx := 0,
          convertIdx := 0, calls := 1 }) ∧
    ({ readIdx := 1, sendIdx := 0, recvIdx := 0, scaleIdx := 0,
       convertIdx := 0, calls := 1 } : DecState).calls = DecState.init.calls + 1 :=
  (claim_C3_iterators_amended envReadExhausted 1 DecState.init).1
    (.error .readExhausted)
    { readIdx := 1, sendIdx := 0, recvIdx := 0, scaleIdx := 0,
      convertIdx := 0, calls := 1 }
    rfl

/-! ## Claim C4 -/

/-- Every frame the packet loop returns successfully is a scaler output
with the source frame's properties copied onto it. -/
theorem decode_raw_loop_ok_shape (env : DecodeEnv) :
    ∀ (fuel : Nat) (s : DecState) (fr : RawFrame) (s1 : DecState),
      decode_raw_loop env fuel s = some (.ok fr, s1) →
      ∃ k src scaled, env.scale k src = .ok scaled ∧
        fr = copy_frame_props src scaled := by
  intro fuel
  induction fuel with
  | zero =>
    intro s fr s1 h
    simp [decode_raw_loop] at h
  | succ fuel ih =>
    intro s fr s1 h
    rw [decode_raw_loop] at h
    split at h
    · simp at h
    · split at h
      · simp at h
      · split at h
        case _ e s3 heq => simp at h
        case _ fr2 s3 heq =>
          split at h
          · simp at h
          case _ scaled hsc =>
            simp only [Option.some.injEq, Prod.mk.injEq, Except.ok.injEq] at h
            exact ⟨s3.scaleIdx, fr2, scaled, hsc, h.1.symm⟩
        case _ s3 heq => exact ih s3 fr s1 h

/-- C4: every frame returned by `decode_raw` has been processed by the
Scaler — it is `copy_frame_props src scaled` for some successful scaler
output `scaled` of a decoded source frame `src` — and the relevant
properties of the unscaled frame (the decode timestamp, and the
presentation timestamp) are copied onto it, so the returned frame's
timestamp is set whenever the source frame's timestamp was set. -/
theorem claim_C4_scaler_processed_props_copied (env : DecodeEnv)
    (fuel : Nat) (s : DecState) (fr : RawFrame) (s1 : DecState)
    (h : decode_raw env fuel s = some (.ok fr, s1)) :
    ∃ k src scaled, env.scale k src = .ok scaled ∧
      fr = copy_frame_props src scaled ∧
      fr.pkt_dts = src.pkt_dts ∧ fr.pts = src.pts ∧
      (src.pkt_dts ≠ AV_NOPTS_VALUE → fr.pkt_dts ≠ AV_NOPTS_VALUE) := by
  obtain ⟨k, src, scaled, hsc, hfr⟩ :=
    decode_raw_loop_ok_shape env fuel _ fr s1 h
  subst hfr
  exact ⟨k, src, scaled, hsc, rfl, rfl, rfl, fun hne => hne⟩

/-- Witness for C4: in the two-packet scenario the returned frame is the
scaler output carrying the decoded frame's timestamps (`77`/`99`), not the
scaler's own blank ones. -/
theorem claim_C4_witness :
    ∃ k src scaled, envTwoPacket.scale k src = .ok scaled ∧
      ({ pkt_dts := 77, pts := 99, payload := 42 } : RawFrame) =
        copy_frame_props src scaled ∧
      ({ pkt_dts := 77, pts := 99, payload := 42 } : RawFrame).pkt_dts =
        src.pkt_dts ∧
      ({ pkt_dts := 77, pts := 99, payload := 42 } : RawFrame).pts = src.pts ∧
      (src.pkt_dts ≠ AV_NOPTS_VALUE →
        ({ pkt_dts := 77, pts := 99, payload := 42 } : RawFrame).pkt_dts ≠
          AV_NOPTS_VALUE) :=
  claim_C4_scaler_processed_props_copied envTwoPacket 2 DecState.init
    { pkt_dts := 77, pts := 99, payload := 42 }
    { readIdx := 2, sendIdx := 2, recvIdx := 2, scaleIdx := 1,
      convertIdx := 0, calls := 1 } rfl

/-! ## Claim C5 -/

/-- C5: the `Time` returned by `decode` is built from the packet decode
timestamp carried by the decoded frame (`frame.packet().dts`), paired with
the decoder time base fixed at construction — not from the frame's own
presentation timestamp. -/
theorem claim_C5_timestamp_from_packet_dts (env : DecodeEnv) (fuel : Nat)
    (s : DecState) (t : Time) (arr : NDFrame) (s1 : DecState)
    (h : decode env fuel s = some (.ok (t, arr), s1)) :
    ∃ fr s0, decode_raw env fuel s = some (.ok fr, s0) ∧
      t = { value := some fr.pkt_dts, base := env.decoder_time_base } := by
  unfold decode at h
  split at h
  · simp at h
  case _ e s0 heq => simp at h
  case _ fr s0 heq =>
    split at h
    · simp at h
    case _ arr2 hcv =>
      simp only [Option.some.injEq, Prod.mk.injEq, Except.ok.injEq] at h
      exact ⟨fr, s0, heq, h.1.1.symm⟩

/-- Witness for C5: in the two-packet scenario the frame's packet decode
timestamp is `77` while its presentation timestamp is `99`; the returned
`Time` pairs `77` with the decoder time base `1/90000`. -/
theorem claim_C5_witness :
    ∃ fr s0, decode_raw envTwoPacket 2 DecState.init = some (.ok fr, s0) ∧
      ({ value := some 77, base := { num := 1, den := 90000 } } : Time) =
        { value := some fr.pkt_dts, base := envTwoPacket.decoder_time_base } :=
  claim_C5_timestamp_from_packet_dts envTwoPacket 2 DecState.init
    { value := some 77, base := { num := 1, den := 90000 } } { data := 42 }
    { readIdx := 2, sendIdx := 2, recvIdx := 2, scaleIdx := 1,
      convertIdx := 1, calls := 1 } rfl

/-! ## Rounding analysis: the nearest-even integer rounding -/

/-- The fraction rounding errs by at most one half. -/
theorem rneFrac_bounds (n d : Int) (hd : 0 < d) :
    |(rneFrac n d : ℚ) - (n : ℚ) / d| ≤ 1 / 2 := by
  have hdQ : (0:ℚ) < (d:ℚ) := by exact_mod_cast hd
  have hed : d * n.ediv d + n.emod d = n := Int.ediv_add_emod n d
  have hr0 : 0 ≤ n.emod d := Int.emod_nonneg n (by omega)
  have hrd : n.emod d < d := Int.emod_lt_of_pos n hd
  have hnd : (n:ℚ)/d = (n.ediv d : ℚ) + (n.emod d : ℚ)/d := by
    have hInt : ((d * n.ediv d + n.emod d : ℤ) : ℚ) = (n : ℚ) := by
      exact_mod_cast congrArg (fun z : ℤ => (z : ℚ)) hed
    push_cast at hInt
    field_simp
    linarith [hInt]
  have hfrac0 : (0:ℚ) ≤ (n.emod d : ℚ)/d :=
    div_nonneg (by exact_mod_cast hr0) (le_of_lt hdQ)
  have hfrac1 : (n.emod d : ℚ)/d < 1 := by
    rw [div_lt_one hdQ]
    exact_mod_cast hrd
  unfold rneFrac
  by_cases h1 : 2 * n.emod d < d
  · have hhalf : (n.emod d : ℚ)/d < 1/2 := by
      rw [div_lt_div_iff hdQ (by norm_num)]
      have : (2 * n.emod d : ℚ) < (d:ℚ) := by exact_mod_cast h1
      linarith
    rw [if_pos h1, hnd, abs_le]
    constructor <;> linarith
  · by_cases h2 : d < 2 * n.emod d
    · have hhalf : 1/2 < (n.emod d : ℚ)/d := by
        rw [div_lt_div_iff (by norm_num) hdQ]
        have : (d:ℚ) < (2 * n.emod d : ℚ) := by exact_mod_cast h2
        linarith
      rw [if_neg h1, if_pos h2, hnd]
      push_cast
      rw [abs_le]
      constructor <;> linarith
    · have hge : (1:ℚ)/2 ≤ (n.emod d : ℚ)/d := by
        rw [div_le_div_iff (by norm_num) hdQ]
        have hh : ((d:ℤ):ℚ) ≤ ((2 * n.emod d : ℤ):ℚ) := by
          exact_mod_cast (by omega : d ≤ 2 * n.emod d)
        push_cast at hh
        linarith
      have hle : (n.emod d : ℚ)/d ≤ 1/2 := by
        rw [div_le_div_iff hdQ (by norm_num)]
        have hh : ((2 * n.emod d : ℤ):ℚ) ≤ ((d:ℤ):ℚ) := by
          exact_mod_cast (by omega : 2 * n.emod d ≤ d)
        push_cast at hh
        linarith
      rw [if_neg h1, if_neg h2]
      by_cases h3 : n.ediv d % 2 = 0
      · rw [if_pos h3, hnd, abs_le]
        constructor <;> linarith
      · rw [if_neg h3, hnd]
        push_cast
        rw [abs_le]
        constructor <;> linarith

/-- Rounding a fraction with denominator one is exact. -/
theorem rneFrac_one (n : Int) : rneFrac n 1 = n := by
  have h1 : n.emod 1 = 0 := by show n % 1 = 0; simp
  have h2 : n.ediv 1 = n := Int.ediv_one n
  unfold rneFrac
  rw [h1, h2]
  norm_num

/-- An integer power of two split into a quotient of natural powers (one
of the two exponents is always zero). -/
theorem zpow_two_split (e : Int) :
    (2:ℚ)^e = (2:ℚ)^e.toNat / (2:ℚ)^(-e).toNat := by
  rcases le_or_lt 0 e with he | he
  · have h1 : (-e).toNat = 0 := by omega
    have h2 : (e.toNat : ℤ) = e := by omega
    rw [h1, pow_zero, div_one, ← zpow_natCast (2:ℚ) e.toNat, h2]
  · have h1 : e.toNat = 0 := by omega
    have h2 : ((-e).toNat : ℤ) = -e := by omega
    have hp : (0:ℚ) < (2:ℚ)^(-e).toNat := by positivity
    rw [h1, pow_zero, eq_div_iff (ne_of_gt hp), ← zpow_natCast (2:ℚ) (-e).toNat,
      h2, ← zpow_add₀ (two_ne_zero)]
    simp

/-- The cross-multiplied power comparison decides `2 ^ e ≤ a / b`. -/
theorem le_pow2_iff (e : Int) (a b : Int) (hb : 0 < b) :
    le_pow2 e a b = true ↔ (2:ℚ)^e ≤ (a:ℚ)/b := by
  have hbQ : (0:ℚ) < (b:ℚ) := by exact_mod_cast hb
  have hp : (0:ℚ) < (2:ℚ)^(-e).toNat := by positivity
  unfold le_pow2
  rw [decide_eq_true_eq, zpow_two_split, div_le_div_iff hp hbQ]
  constructor
  · intro h
    have hQ : ((b * 2 ^ e.toNat : ℤ) : ℚ) ≤ ((a * 2 ^ (-e).toNat : ℤ) : ℚ) := by
      exact_mod_cast h
    push_cast at hQ
    linarith
  · intro h
    have hQ : ((b * 2 ^ e.toNat : ℤ) : ℚ) ≤ ((a * 2 ^ (-e).toNat : ℤ) : ℚ) := by
      push_cast
      linarith
    exact_mod_cast hQ

/-- The exponent search, run with the invariant that the fraction is below
the power just above the starting exponent, either brackets the fraction or
runs out of fuel with the bound pushed all the way down. -/
theorem findExpDown_spec (a b : Int) (hb : 0 < b) :
    ∀ (fuel : Nat) (e0 : Int), (a:ℚ)/b < (2:ℚ)^(e0+1) →
      ((2:ℚ)^(findExpDown a b fuel e0) ≤ (a:ℚ)/b ∧
        (a:ℚ)/b < (2:ℚ)^(findExpDown a b fuel e0 + 1)) ∨
      (findExpDown a b fuel e0 = e0 - fuel ∧
        (a:ℚ)/b < (2:ℚ)^(e0 - fuel + 1)) := by
  intro fuel
  induction fuel with
  | zero =>
    intro e0 hinv
    right
    refine ⟨by simp [findExpDown], ?_⟩
    simpa using hinv
  | succ fuel ih =>
    intro e0 hinv
    rw [findExpDown]
    cases hle : le_pow2 e0 a b with
    | true =>
      rw [if_pos rfl]
      exact Or.inl ⟨(le_pow2_iff e0 a b hb).mp hle, hinv⟩
    | false =>
      rw [if_neg (by simp)]
      have hlt : (a:ℚ)/b < (2:ℚ)^e0 := by
        by_contra hge
        push_neg at hge
        rw [← le_pow2_iff e0 a b hb] at hge
        rw [hle] at hge
        exact Bool.false_ne_true hge
      have hinv2 : (a:ℚ)/b < (2:ℚ)^((e0-1)+1) := by
        simpa using hlt
      rcases ih (e0-1) hinv2 with h | h
      · exact Or.inl h
      · refine Or.inr ⟨?_, ?_⟩
        · rw [h.1]
          push_cast
          ring
        · have h2 := h.2
          have harith : e0 - 1 - (fuel:ℤ) + 1 = e0 - ((fuel:ℤ) + 1) + 1 := by ring
          rw [harith] at h2
          have hcast : ((fuel + 1 : ℕ) : ℤ) = (fuel:ℤ) + 1 := by push_cast; ring
          rw [hcast]
          exact h2

/-- The binade exponent of `a / b` in the `f32` range: either it brackets
the fraction, or the fraction is below the whole normal-subnormal range. -/
theorem findExp_spec (a b : Int) (hb : 0 < b)
    (hq : (a:ℚ)/b < (2:ℚ)^(128:ℤ)) :
    ((2:ℚ)^(findExp a b) ≤ (a:ℚ)/b ∧ (a:ℚ)/b < (2:ℚ)^(findExp a b + 1)) ∨
    (findExp a b = -127 ∧ (a:ℚ)/b < (2:ℚ)^(-126 : ℤ)) := by
  unfold findExp
  have h1 : ((127:ℤ) + 1) = (128:ℤ) := by norm_num
  have h := findExpDown_spec a b hb 254 127 (by rw [h1]; exact hq)
  rcases h with h | h
  · exact Or.inl h
  · refine Or.inr ⟨?_, ?_⟩
    · rw [h.1]
      norm_num
    · have h2 := h.2
      have he : (127:ℤ) - ((254:ℕ):ℤ) + 1 = -126 := by norm_num
      rw [he] at h2
      exact h2

/-- The rounded positive fraction is nonnegative. -/
theorem roundPosSig_nonneg (a b : Int) (ha : 0 < a) (hb : 0 < b) :
    0 ≤ roundPosSig a b := by
  have hgoal : roundPosSig a b =
      rneFrac (a * 2 ^ (23 - max (findExp a b) (-126)).toNat)
          (b * 2 ^ (-(23 - max (findExp a b) (-126))).toNat) *
        2 ^ (max (findExp a b) (-126) + 126).toNat := rfl
  rw [hgoal]
  set n := a * 2 ^ (23 - max (findExp a b) (-126)).toNat with hn
  set d := b * 2 ^ (-(23 - max (findExp a b) (-126))).toNat with hd
  have hdpos : (0:ℤ) < d := by rw [hd]; positivity
  have hnpos : (0:ℤ) < n := by rw [hn]; positivity
  have hrb := rneFrac_bounds n d hdpos
  rw [abs_le] at hrb
  have hvalpos : (0:ℚ) < (n:ℚ)/(d:ℚ) := by
    apply div_pos
    · exact_mod_cast hnpos
    · exact_mod_cast hdpos
  have hm : (0:ℤ) ≤ rneFrac n d := by
    by_contra hneg
    push_neg at hneg
    have hmq : (rneFrac n d : ℚ) ≤ -1 := by
      exact_mod_cast (by omega : rneFrac n d ≤ -1)
    linarith [hrb.1, hvalpos]
  exact mul_nonneg hm (by positivity)

/-- Two-sided rounding error of the positive-fraction rounding, at the
significand scale `2 ^ 149`: the significand is within relative error
`2 ^ -24` plus half a subnormal unit of the exact scaled value. -/
theorem roundPosSig_bounds (a b : Int) (ha : 0 < a) (hb : 0 < b)
    (hq : (a:ℚ)/b < (2:ℚ)^(128:ℤ)) :
    |(roundPosSig a b : ℚ) - ((a:ℚ)/b) * 2^149| ≤
      ((a:ℚ)/b) * 2^149 / 2^24 + 1/2 := by
  have hbQ : (0:ℚ) < (b:ℚ) := by exact_mod_cast hb
  have haQ : (0:ℚ) < (a:ℚ) := by exact_mod_cast ha
  have hqpos : (0:ℚ) < (a:ℚ)/b := div_pos haQ hbQ
  have hgoal : roundPosSig a b =
      rneFrac (a * 2 ^ (23 - max (findExp a b) (-126)).toNat)
          (b * 2 ^ (-(23 - max (findExp a b) (-126))).toNat) *
        2 ^ (max (findExp a b) (-126) + 126).toNat := rfl
  set E := max (findExp a b) (-126) with hE
  have hE126 : -126 ≤ E := le_max_right _ _
  set n := a * 2 ^ (23 - E).toNat with hn
  set d := b * 2 ^ (-(23 - E)).toNat with hd
  have hdpos : (0:ℤ) < d := by rw [hd]; positivity
  have hdQ : (0:ℚ) < (d:ℚ) := by exact_mod_cast hdpos
  have hb0 : (b:ℚ) ≠ 0 := ne_of_gt hbQ
  have hval : (n:ℚ)/(d:ℚ) = ((a:ℚ)/b) * (2:ℚ)^((23:ℤ) - E) := by
    rw [zpow_two_split ((23:ℤ) - E), hn, hd]
    push_cast
    rw [mul_div_mul_comm]
  have hrb := rneFrac_bounds n d hdpos
  rw [hval] at hrb
  have hp : (0:ℚ) < (2:ℚ)^((E:ℤ)+126) := by positivity
  have hscaled : |((rneFrac n d : ℚ) - ((a:ℚ)/b) * (2:ℚ)^((23:ℤ)-E)) *
      (2:ℚ)^((E:ℤ)+126)| ≤ (1/2) * (2:ℚ)^((E:ℤ)+126) := by
    rw [abs_mul, abs_of_pos hp]
    exact mul_le_mul_of_nonneg_right hrb (le_of_lt hp)
  have hpow : (2:ℚ)^((23:ℤ)-E) * (2:ℚ)^((E:ℤ)+126) = 2^149 := by
    rw [← zpow_add₀ (two_ne_zero : (2:ℚ) ≠ 0)]
    have harith : (23:ℤ) - E + (E + 126) = 149 := by ring
    rw [harith]
    norm_num
  have hdist : (rneFrac n d : ℚ) * (2:ℚ)^((E:ℤ)+126) - ((a:ℚ)/b) * 2^149 =
      ((rneFrac n d : ℚ) - ((a:ℚ)/b) * (2:ℚ)^((23:ℤ)-E)) * (2:ℚ)^((E:ℤ)+126) := by
    rw [sub_mul, mul_assoc, hpow]
  have hsigcast : ((roundPosSig a b : ℤ) : ℚ) =
      (rneFrac n d : ℚ) * (2:ℚ)^((E:ℤ)+126) := by
    rw [hgoal]
    push_cast
    rw [← zpow_natCast (2:ℚ) ((E + 126).toNat), Int.toNat_of_nonneg (by omega)]
  rw [hsigcast, hdist]
  refine le_trans hscaled ?_
  by_cases hcase : -126 ≤ findExp a b
  · have hEeq : E = findExp a b := max_eq_left hcase
    have hbr : (2:ℚ)^E ≤ (a:ℚ)/b := by
      rcases findExp_spec a b hb hq with h | h
      · rw [hEeq]
        exact h.1
      · exfalso
        omega
    have h1 : (1/2) * (2:ℚ)^((E:ℤ)+126) = (2:ℚ)^E * 2^125 := by
      rw [zpow_add₀ (two_ne_zero : (2:ℚ) ≠ 0)]
      have h126 : ((2:ℚ))^((126:ℤ)) = 2 * 2^125 := by norm_num
      rw [h126]
      ring
    have h2 : ((a:ℚ)/b) * 2^149 / 2^24 = ((a:ℚ)/b) * 2^125 := by
      rw [mul_div_assoc]
      norm_num
    rw [h1, h2]
    have h3 : (2:ℚ)^E * 2^125 ≤ ((a:ℚ)/b) * 2^125 :=
      mul_le_mul_of_nonneg_right hbr (by positivity)
    linarith
  · have hEeq : E = -126 := by
      push_neg at hcase
      rw [hE]
      exact max_eq_right (le_of_lt hcase)
    rw [hEeq]
    have h1 : (1/2) * (2:ℚ)^((-126:ℤ)+126) = 1/2 := by norm_num
    rw [h1]
    have h2 : (0:ℚ) ≤ ((a:ℚ)/b) * 2^149 / 2^24 := by positivity
    linarith

/-- Rounding an integer below `2 ^ 24` is exact (the significand is the
integer at full scale). -/
theorem roundPosSig_int_exact (v : Int) (h1 : 0 < v) (h2 : v < 2^24) :
    roundPosSig v 1 = v * 2^149 := by
  have hvQ : (0:ℚ) < (v:ℚ) := by exact_mod_cast h1
  have hq1 : (v:ℚ)/1 = (v:ℚ) := div_one _
  have hqlt : (v:ℚ)/1 < (2:ℚ)^(128:ℤ) := by
    rw [hq1]
    have hv : (v:ℚ) < 2^24 := by exact_mod_cast h2
    have : ((2:ℚ))^((128:ℤ)) = 2^128 := by norm_num
    rw [this]
    have hmono : (2:ℚ)^24 ≤ (2:ℚ)^128 := by norm_num
    linarith
  have hspec := findExp_spec v 1 one_pos hqlt
  rcases hspec with hbr | hlow
  · simp only [Int.cast_one, div_one] at hbr
    set e := findExp v 1 with he
    have he0 : 0 ≤ e := by
      by_contra hneg
      push_neg at hneg
      have hle : e + 1 ≤ 0 := by omega
      have : (2:ℚ)^(e+1) ≤ (2:ℚ)^(0:ℤ) :=
        zpow_le_zpow_right₀ (by norm_num) hle
      have h1Q : (1:ℚ) ≤ (v:ℚ) := by exact_mod_cast h1
      rw [zpow_zero] at this
      linarith [hbr.2]
    have he23 : e ≤ 23 := by
      by_contra hgt
      push_neg at hgt
      have h24 : (24:ℤ) ≤ e := by omega
      have : (2:ℚ)^((24:ℤ)) ≤ (2:ℚ)^e :=
        zpow_le_zpow_right₀ (by norm_num) h24
      have hv : (v:ℚ) < 2^24 := by exact_mod_cast h2
      have h24q : ((2:ℚ))^((24:ℤ)) = 2^24 := by norm_num
      rw [h24q] at this
      linarith [hbr.1]
    have hmax : max e (-126) = e := max_eq_left (by omega)
    have hgoal : roundPosSig v 1 =
        rneFrac (v * 2 ^ (23 - max (findExp v 1) (-126)).toNat)
            (1 * 2 ^ (-(23 - max (findExp v 1) (-126))).toNat) *
          2 ^ (max (findExp v 1) (-126) + 126).toNat := rfl
    rw [hgoal, ← he, hmax]
    have hk : (-(23 - e)).toNat = 0 := by omega
    rw [hk]
    have hden1 : (1 * 2 ^ (0:ℕ) : ℤ) = 1 := by norm_num
    rw [hden1, rneFrac_one]
    have hexp : (23 - e).toNat + (e + 126).toNat = 149 := by omega
    rw [mul_assoc, ← pow_add, hexp]
  · exfalso
    simp only [Int.cast_one, div_one] at hlow
    have h1Q : (1:ℚ) ≤ (v:ℚ) := by exact_mod_cast h1
    have : (2:ℚ)^((-126:ℤ)) ≤ (2:ℚ)^(0:ℤ) :=
      zpow_le_zpow_right₀ (by norm_num) (by norm_num)
    rw [zpow_zero] at this
    linarith [hlow.2]

/-- The rounding bounds, cross-multiplied by the denominator. -/
theorem roundPosSig_mul_bounds (a b : Int) (ha : 0 < a) (hb : 0 < b)
    (hq : (a:ℚ)/b < (2:ℚ)^(128:ℤ)) :
    (a:ℚ) * 2^149 - (a:ℚ) * 2^149/2^24 - (b:ℚ)/2 ≤ (roundPosSig a b : ℚ) * b ∧
    (roundPosSig a b : ℚ) * b ≤ (a:ℚ) * 2^149 + (a:ℚ) * 2^149/2^24 + (b:ℚ)/2 := by
  have hbQ : (0:ℚ) < (b:ℚ) := by exact_mod_cast hb
  have h := roundPosSig_bounds a b ha hb hq
  rw [abs_le] at h
  have h1 := mul_le_mul_of_nonneg_right h.1 (le_of_lt hbQ)
  have h2 := mul_le_mul_of_nonneg_right h.2 (le_of_lt hbQ)
  have hqb : ((a:ℚ)/b) * (b:ℚ) = (a:ℚ) := div_mul_cancel₀ _ (ne_of_gt hbQ)
  constructor
  · ring_nf at h1 hqb ⊢
    nlinarith [h1, hqb]
  · ring_nf at h2 hqb ⊢
    nlinarith [h2, hqb]

/-- A fraction at most `2 ^ 126` rounds below the overflow significand. -/
theorem roundPosSig_lt_of_small (a b : Int) (ha : 0 < a) (hb : 0 < b)
    (hq : (a:ℚ)/b ≤ (2:ℚ)^(126:ℤ)) : roundPosSig a b < 2^277 := by
  have hbQ : (0:ℚ) < (b:ℚ) := by exact_mod_cast hb
  have hq128 : (a:ℚ)/b < (2:ℚ)^(128:ℤ) := by
    have hmono : (2:ℚ)^((126:ℤ)) < (2:ℚ)^((128:ℤ)) := by norm_num
    linarith
  have hub := (roundPosSig_mul_bounds a b ha hb hq128).2
  have hab : (a:ℚ) ≤ 2^126 * (b:ℚ) := by
    rw [div_le_iff hbQ] at hq
    calc (a:ℚ) ≤ (2:ℚ)^((126:ℤ)) * b := hq
      _ = 2^126 * (b:ℚ) := by norm_num
  have hcast : ((roundPosSig a b : ℤ) : ℚ) < ((2^277 : ℤ) : ℚ) := by
    push_cast
    have hfinal : (roundPosSig a b : ℚ) * b < 2^277 * (b:ℚ) := by
      nlinarith [hub, hab, hbQ]
    exact lt_of_mul_lt_mul_right hfinal (le_of_lt hbQ)
  exact_mod_cast hcast

set_option maxRecDepth 8000 in
/-- The `u32`-to-`f32` conversion of a positive number in range: finite,
positive, within relative error `2 ^ -24` plus half a unit. -/
theorem F32_ofNat_eq (n : Nat) (h0 : 0 < n) (hlt : (n:ℤ) < 2^64) :
    ∃ sa : Int, F32.ofNat n = .finite sa ∧ 0 < sa ∧
      (n:ℚ) * 2^149 - (n:ℚ) * 2^149/2^24 - 1/2 ≤ (sa:ℚ) ∧
      (sa:ℚ) ≤ (n:ℚ) * 2^149 + (n:ℚ) * 2^149/2^24 + 1/2 := by
  have hn0 : (n:ℤ) ≠ 0 := by exact_mod_cast Nat.pos_iff_ne_zero.mp h0
  have hnpos : (0:ℤ) < (n:ℤ) := by exact_mod_cast h0
  have hq : ((n:ℤ):ℚ)/((1:ℤ):ℚ) ≤ (2:ℚ)^(126:ℤ) := by
    push_cast
    rw [div_one]
    have h126 : ((2:ℚ))^((126:ℤ)) = 2^126 := by norm_num
    rw [h126]
    have : ((n:ℤ):ℚ) < 2^64 := by exact_mod_cast hlt
    push_cast at this
    have hmono : (2:ℚ)^64 ≤ (2:ℚ)^126 := by norm_num
    linarith
  have hq128 : ((n:ℤ):ℚ)/((1:ℤ):ℚ) < (2:ℚ)^(128:ℤ) := by
    have hmono : (2:ℚ)^((126:ℤ)) < (2:ℚ)^((128:ℤ)) := by norm_num
    linarith
  have hnof : roundPosSig (n:ℤ) 1 < 2^277 := roundPosSig_lt_of_small _ 1 hnpos one_pos hq
  have hb := roundPosSig_mul_bounds (n:ℤ) 1 hnpos one_pos hq128
  refine ⟨roundPosSig (n:ℤ) 1, ?_, ?_, ?_, ?_⟩
  · have hred : F32.ofNat n = (if n = 0 then .finite 0 else F32.ofPosFrac (n:ℤ) 1) := rfl
    have hred2 : F32.ofPosFrac (n:ℤ) 1 =
        (if (2:ℤ)^277 ≤ roundPosSig (n:ℤ) 1 then .inf false
         else .finite (roundPosSig (n:ℤ) 1)) := rfl
    rw [hred, if_neg (Nat.pos_iff_ne_zero.mp h0), hred2, if_neg (by omega)]
  · have hlow := hb.1
    push_cast at hlow
    have hnQ : (1:ℚ) ≤ (n:ℚ) := by exact_mod_cast h0
    have : (0:ℚ) < (roundPosSig (n:ℤ) 1 : ℚ) := by linarith [hlow, hnQ]
    exact_mod_cast this
  · have hlow := hb.1
    push_cast at hlow ⊢
    linarith
  · have hup := hb.2
    push_cast at hup ⊢
    linarith

/-- The `u32`-to-`f32` conversion is exact below `2 ^ 24`. -/
theorem F32_ofNat_exact (n : Nat) (hlt : n < 2^24) :
    F32.ofNat n = .finite ((n:ℤ) * 2^149) := by
  rcases Nat.eq_zero_or_pos n with h0 | h0
  · subst h0
    simp [F32.ofNat]
  · have hnpos : (0:ℤ) < (n:ℤ) := by exact_mod_cast h0
    have hlt24 : ((n:ℤ)) < 2^24 := by exact_mod_cast hlt
    have hex := roundPosSig_int_exact (n:ℤ) hnpos hlt24
    have hred : F32.ofNat n = (if n = 0 then .finite 0 else F32.ofPosFrac (n:ℤ) 1) := rfl
    have hred2 : F32.ofPosFrac (n:ℤ) 1 =
        (if (2:ℤ)^277 ≤ roundPosSig (n:ℤ) 1 then .inf false
         else .finite (roundPosSig (n:ℤ) 1)) := rfl
    rw [hred, if_neg (Nat.pos_iff_ne_zero.mp h0), hred2, if_neg (by nlinarith [hlt24, hnpos]),
      hex]

/-- Finite-by-finite `f32` division of nonnegative values in range:
finite, nonnegative, correctly rounded (cross-multiplied bounds). -/
theorem F32_div_finite (sb sa : Int) (hsb : 0 ≤ sb) (hsa : 0 < sa)
    (hq : (sb:ℚ)/sa ≤ (2:ℚ)^(126:ℤ)) :
    ∃ sq : Int, F32.div (.finite sb) (.finite sa) = .finite sq ∧ 0 ≤ sq ∧
      (sb:ℚ) * 2^149 - (sb:ℚ) * 2^149/2^24 - (sa:ℚ)/2 ≤ (sq:ℚ) * sa ∧
      (sq:ℚ) * sa ≤ (sb:ℚ) * 2^149 + (sb:ℚ) * 2^149/2^24 + (sa:ℚ)/2 := by
  have hsaQ : (0:ℚ) < (sa:ℚ) := by exact_mod_cast hsa
  rcases eq_or_lt_of_le hsb with h0 | hpos
  · refine ⟨0, ?_, le_refl 0, ?_, ?_⟩
    · have hred : F32.div (.finite sb) (.finite sa) =
          (if sa = 0 then (if sb = 0 then F32.nan else F32.inf (decide (sb < 0)))
           else if sb = 0 then .finite 0
           else if xor (decide (sb < 0)) (decide (sa < 0)) then
             (F32.ofPosFrac (sb.natAbs : ℤ) (sa.natAbs : ℤ)).neg
           else F32.ofPosFrac (sb.natAbs : ℤ) (sa.natAbs : ℤ)) := rfl
      rw [hred, if_neg (by omega), if_pos h0.symm]
    · rw [← h0]
      push_cast
      linarith
    · rw [← h0]
      push_cast
      linarith
  · have hq128 : (sb:ℚ)/sa < (2:ℚ)^(128:ℤ) := by
      have hmono : (2:ℚ)^((126:ℤ)) < (2:ℚ)^((128:ℤ)) := by norm_num
      linarith
    have habs_b : ((sb.natAbs : ℤ)) = sb := Int.natAbs_of_nonneg hsb
    have habs_a : ((sa.natAbs : ℤ)) = sa := Int.natAbs_of_nonneg (le_of_lt hsa)
    have hnof : roundPosSig sb sa < 2^277 := roundPosSig_lt_of_small sb sa hpos hsa hq
    have hb := roundPosSig_mul_bounds sb sa hpos hsa hq128
    refine ⟨roundPosSig sb sa, ?_, roundPosSig_nonneg sb sa hpos hsa, hb.1, hb.2⟩
    have hred : F32.div (.finite sb) (.finite sa) =
        (if sa = 0 then (if sb = 0 then F32.nan else F32.inf (decide (sb < 0)))
         else if sb = 0 then .finite 0
         else if xor (decide (sb < 0)) (decide (sa < 0)) then
           (F32.ofPosFrac (sb.natAbs : ℤ) (sa.natAbs : ℤ)).neg
         else F32.ofPosFrac (sb.natAbs : ℤ) (sa.natAbs : ℤ)) := rfl
    rw [hred, if_neg (by omega), if_neg (by omega)]
    have hxor : xor (decide (sb < 0)) (decide (sa < 0)) = false := by
      have h1 : decide (sb < 0) = false := by simp only [decide_eq_false_iff_not]; omega
      have h2 : decide (sa < 0) = false := by simp only [decide_eq_false_iff_not]; omega
      rw [h1, h2]
      rfl
    rw [hxor]
    simp only [Bool.false_eq_true, if_false]
    rw [habs_b, habs_a]
    have hred2 : F32.ofPosFrac sb sa =
        (if (2:ℤ)^277 ≤ roundPosSig sb sa then .inf false
         else .finite (roundPosSig sb sa)) := rfl
    rw [hred2, if_neg (by omega)]

set_option maxRecDepth 8000 in
/-- Finite-by-finite `f32` multiplication of nonnegative values in range:
finite, nonnegative, correctly rounded (bounds at scale `2 ^ 298`). -/
theorem F32_mul_finite (sa sf : Int) (hsa : 0 < sa) (hsf : 0 ≤ sf)
    (hsmall : (sa:ℚ) * sf ≤ (2:ℚ)^400) :
    ∃ sp : Int, F32.mul (.finite sa) (.finite sf) = .finite sp ∧ 0 ≤ sp ∧
      (sa:ℚ) * sf * 2^149 - (sa:ℚ) * sf * 2^149/2^24 - 2^297 ≤ (sp:ℚ) * 2^298 ∧
      (sp:ℚ) * 2^298 ≤ (sa:ℚ) * sf * 2^149 + (sa:ℚ) * sf * 2^149/2^24 + 2^297 := by
  rcases eq_or_lt_of_le hsf with h0 | hpos
  · refine ⟨0, ?_, le_refl 0, ?_, ?_⟩
    · have hred : F32.mul (.finite sa) (.finite sf) =
          (if sa = 0 ∨ sf = 0 then .finite 0
           else if xor (decide (sa < 0)) (decide (sf < 0)) then
             (F32.ofPosFrac ((sa.natAbs * sf.natAbs : ℕ) : ℤ) (2^298)).neg
           else F32.ofPosFrac ((sa.natAbs * sf.natAbs : ℕ) : ℤ) (2^298)) := rfl
      rw [hred, if_pos (Or.inr h0.symm)]
    · rw [← h0]
      push_cast
      linarith
    · rw [← h0]
      push_cast
      linarith
  · have hprod : (0:ℤ) < sa * sf := mul_pos hsa hpos
    have hden : (0:ℤ) < (2^298 : ℤ) := by positivity
    have hq : ((sa * sf : ℤ):ℚ)/((2^298 : ℤ):ℚ) ≤ (2:ℚ)^(126:ℤ) := by
      push_cast
      rw [div_le_iff (by positivity)]
      have h126 : ((2:ℚ))^((126:ℤ)) = 2^126 := by norm_num
      rw [h126]
      have hbig : ((2:ℚ))^400 ≤ 2^126 * 2^298 := by norm_num
      linarith
    have hq128 : ((sa * sf : ℤ):ℚ)/((2^298 : ℤ):ℚ) < (2:ℚ)^(128:ℤ) := by
      have hmono : (2:ℚ)^((126:ℤ)) < (2:ℚ)^((128:ℤ)) := by norm_num
      linarith
    have hnof : roundPosSig (sa * sf) (2^298) < 2^277 :=
      roundPosSig_lt_of_small _ _ hprod hden hq
    have hb := roundPosSig_mul_bounds (sa * sf) (2^298) hprod hden hq128
    refine ⟨roundPosSig (sa * sf) (2^298), ?_, ?_, ?_, ?_⟩
    · have hred : F32.mul (.finite sa) (.finite sf) =
          (if sa = 0 ∨ sf = 0 then .finite 0
           else if xor (decide (sa < 0)) (decide (sf < 0)) then
             (F32.ofPosFrac ((sa.natAbs * sf.natAbs : ℕ) : ℤ) (2^298)).neg
           else F32.ofPosFrac ((sa.natAbs * sf.natAbs : ℕ) : ℤ) (2^298)) := rfl
      have hxor : xor (decide (sa < 0)) (decide (sf < 0)) = false := by
        have h1 : decide (sa < 0) = false := by
          simp only [decide_eq_false_iff_not]
          omega
        have h2 : decide (sf < 0) = false := by
          simp only [decide_eq_false_iff_not]
          omega
        rw [h1, h2]
        rfl
      have habs : ((sa.natAbs * sf.natAbs : ℕ) : ℤ) = sa * sf := by
        have h1 : ((sa.natAbs : ℕ) : ℤ) = sa := Int.natAbs_of_nonneg (le_of_lt hsa)
        have h2 : ((sf.natAbs : ℕ) : ℤ) = sf := Int.natAbs_of_nonneg hsf
        rw [Nat.cast_mul, h1, h2]
      rw [hred, if_neg (by omega), hxor]
      simp only [Bool.false_eq_true, if_false]
      have hred2 : F32.ofPosFrac ((sa.natAbs * sf.natAbs : ℕ) : ℤ) (2^298) =
          .finite (roundPosSig ((sa.natAbs * sf.natAbs : ℕ) : ℤ) (2^298)) := by
        have hred3 : F32.ofPosFrac ((sa.natAbs * sf.natAbs : ℕ) : ℤ) (2^298) =
            (if (2:ℤ)^277 ≤ roundPosSig ((sa.natAbs * sf.natAbs : ℕ) : ℤ) (2^298)
             then .inf false
             else .finite (roundPosSig ((sa.natAbs * sf.natAbs : ℕ) : ℤ) (2^298))) := rfl
        rw [hred3, habs, if_neg (by omega)]
      rw [hred2, habs]
    · exact roundPosSig_nonneg _ _ hprod hden
    · have h1 := hb.1
      push_cast at h1 ⊢
      linarith
    · have h2 := hb.2
      push_cast at h2 ⊢
      linarith

/-- Multiplying the `f32` zero by anything casts to `0`. -/
theorem F32_mul_zero_toU32 (f : F32) :
    (F32.mul (.finite 0) f).toU32 = 0 := by
  cases f with
  | nan => rfl
  | inf s => simp [F32.mul, F32.toU32]
  | finite x =>
    have hred : F32.mul (.finite 0) (.finite x) =
        (if (0:ℤ) = 0 ∨ x = 0 then .finite 0
         else if xor (decide ((0:ℤ) < 0)) (decide (x < 0)) then
           (F32.ofPosFrac (((0:ℤ).natAbs * x.natAbs : ℕ) : ℤ) (2^298)).neg
         else F32.ofPosFrac (((0:ℤ).natAbs * x.natAbs : ℕ) : ℤ) (2^298)) := rfl
    rw [hred, if_pos (Or.inl rfl)]
    rfl

/-- Taking the minimum against a finite right operand yields a finite
value at most that operand (for a left operand that is not negative
infinity and carries a nonnegative value when finite). -/
theorem F32_fmin_finite_right (y : F32) (x : Int)
    (hy : y ≠ .inf true) (hx : 0 ≤ x) :
    ∃ sf, F32.fmin y (.finite x) = .finite sf ∧ sf ≤ x ∧
      (∀ z, y = .finite z → sf = min z x) ∧
      ((∀ z, y ≠ .finite z) → sf = x) := by
  cases y with
  | nan =>
    refine ⟨x, rfl, le_refl x, ?_, ?_⟩
    · intro z hz
      cases hz
    · intro hz
      rfl
  | inf s =>
    cases s with
    | false =>
      refine ⟨x, rfl, le_refl x, ?_, ?_⟩
      · intro z hz
        cases hz
      · intro hz
        rfl
    | true => exact absurd rfl hy
  | finite z =>
    refine ⟨min z x, rfl, min_le_right z x, ?_, ?_⟩
    · intro z2 hz
      cases hz
      rfl
    · intro hz
      exact absurd rfl (hz z)

/-- Taking the minimum against a finite left operand yields a finite
value at most that operand (for a right operand that is not negative
infinity). -/
theorem F32_fmin_finite_left (x : Int) (y : F32)
    (hy : y ≠ .inf true) :
    ∃ sf, F32.fmin (.finite x) y = .finite sf ∧ sf ≤ x ∧
      (∀ z, y = .finite z → sf = min x z) ∧
      ((∀ z, y ≠ .finite z) → sf = x) := by
  cases y with
  | nan =>
    refine ⟨x, rfl, le_refl x, ?_, ?_⟩
    · intro z hz
      cases hz
    · intro hz
      rfl
  | inf s =>
    cases s with
    | false =>
      refine ⟨x, rfl, le_refl x, ?_, ?_⟩
      · intro z hz
        cases hz
      · intro hz
        rfl
    | true => exact absurd rfl hy
  | finite z =>
    refine ⟨min x z, rfl, min_le_left x z, ?_, ?_⟩
    · intro z2 hz
      cases hz
      rfl
    · intro hz
      exact absurd rfl (hz z)

/-- The saturating cast of a nonnegative finite `f32` below `2 ^ 32` is
the floor of its value: `out * 2 ^ 149 ≤ sig < (out + 1) * 2 ^ 149`. -/
theorem F32_toU32_floor (sp : Int) (h0 : 0 ≤ sp) (hlt : sp < 2^32 * 2^149) :
    ((F32.toU32 (.finite sp) : ℤ) * 2^149 ≤ sp ∧
      sp < ((F32.toU32 (.finite sp) : ℤ) + 1) * 2^149) := by
  have hS : (0:ℤ) < 2^149 := by positivity
  have hdm := Int.ediv_add_emod sp (2^149)
  have hdiv_eq : sp / (2^149 : ℤ) = sp.ediv (2^149) := rfl
  have hmod_eq : sp % (2^149 : ℤ) = sp.emod (2^149) := rfl
  rw [hdiv_eq, hmod_eq] at hdm
  have hm0 : 0 ≤ sp.emod (2^149) := Int.emod_nonneg sp (by positivity)
  have hmlt : sp.emod (2^149) < 2^149 := Int.emod_lt_of_pos sp hS
  have hq0 : 0 ≤ sp.ediv (2^149) := Int.ediv_nonneg h0 (le_of_lt hS)
  have hqlt : sp.ediv (2^149) < 2^32 := by nlinarith [hdm, hm0, hq0]
  rcases eq_or_lt_of_le h0 with hz | hpos
  · rw [← hz]
    simp [F32.toU32]
  · have hred : F32.toU32 (.finite sp) =
        (if sp ≤ 0 then 0 else min ((sp.ediv (2^149)).toNat) (2^32 - 1)) := rfl
    have hcast : F32.toU32 (.finite sp) = (sp.ediv (2^149)).toNat := by
      rw [hred, if_neg (by omega)]
      have hle : (sp.ediv (2^149)).toNat ≤ 2^32 - 1 := by omega
      exact Nat.min_eq_left hle
    rw [hcast, Int.toNat_of_nonneg hq0]
    constructor
    · nlinarith [hdm, hm0]
    · nlinarith [hdm, hmlt]

/-- The `u32`-to-`f32` conversion of any value in the `u32` range is a
nonnegative finite value. -/
theorem F32_ofNat_finite_nonneg (n : ℕ) (hn : n < 2^32) :
    ∃ s : Int, F32.ofNat n = .finite s ∧ 0 ≤ s ∧ (s:ℚ) ≤ 2^182 := by
  rcases Nat.eq_zero_or_pos n with h0 | h0
  · subst h0
    refine ⟨0, rfl, le_refl 0, by norm_num⟩
  · obtain ⟨s, heq, hpos, -, hub⟩ := F32_ofNat_eq n h0 (by omega)
    refine ⟨s, heq, le_of_lt hpos, ?_⟩
    have hnQ : (n:ℚ) ≤ 2^32 - 1 := by
      have h1 : n ≤ 4294967295 := by omega
      have h2 : (n:ℚ) ≤ 4294967295 := by exact_mod_cast h1
      linarith
    linarith [hub, hnQ]

set_option maxRecDepth 8000 in
/-- A quotient of two converted `u32` values is never negative infinity,
and is nonnegative whenever it is finite. -/
theorem F32_div_ofNat_shape (x y : ℕ) (hx : x < 2^32) (hy : y < 2^32) :
    F32.div (F32.ofNat x) (F32.ofNat y) ≠ .inf true ∧
    (∀ z, F32.div (F32.ofNat x) (F32.ofNat y) = .finite z → 0 ≤ z) := by
  obtain ⟨sx, hxeq, hx0, hxub⟩ := F32_ofNat_finite_nonneg x hx
  rw [hxeq]
  rcases Nat.eq_zero_or_pos y with hy0 | hy1
  · subst hy0
    have hyeq : F32.ofNat 0 = .finite 0 := rfl
    rw [hyeq]
    have hred : F32.div (.finite sx) (.finite 0) =
        (if (0:ℤ) = 0 then (if sx = 0 then F32.nan else F32.inf (decide (sx < 0)))
         else if sx = 0 then .finite 0
         else if xor (decide (sx < 0)) (decide ((0:ℤ) < 0)) then
           (F32.ofPosFrac (sx.natAbs : ℤ) ((0:ℤ).natAbs : ℤ)).neg
         else F32.ofPosFrac (sx.natAbs : ℤ) ((0:ℤ).natAbs : ℤ)) := rfl
    rw [hred, if_pos rfl]
    by_cases hsx : sx = 0
    · rw [if_pos hsx]
      exact ⟨fun hcontra => F32.noConfusion hcontra,
        fun z hz => F32.noConfusion hz⟩
    · rw [if_neg hsx]
      have hdec : decide (sx < 0) = false := by
        simp only [decide_eq_false_iff_not]
        omega
      rw [hdec]
      refine ⟨fun hcontra => ?_, fun z hz => F32.noConfusion hz⟩
      have := F32.inf.injEq false true ▸ hcontra
      simp at this
  · obtain ⟨sy, hyeq, hypos, hylb, -⟩ := F32_ofNat_eq y hy1 (by omega)
    rw [hyeq]
    have hyQ1 : (1:ℚ) ≤ (y:ℚ) := by exact_mod_cast hy1
    have hsy148 : (2:ℚ)^148 ≤ (sy:ℚ) := by linarith [hylb, hyQ1]
    have hsyQ : (0:ℚ) < (sy:ℚ) := by exact_mod_cast hypos
    have hq : (sx:ℚ)/(sy:ℚ) ≤ (2:ℚ)^(126:ℤ) := by
      rw [div_le_iff hsyQ]
      have h126 : ((2:ℚ))^((126:ℤ)) = 2^126 := by norm_num
      rw [h126]
      have hx0Q : (0:ℚ) ≤ (sx:ℚ) := by exact_mod_cast hx0
      nlinarith [hxub, hsy148]
    obtain ⟨sq, hsqeq, hsq0, -, -⟩ := F32_div_finite sx sy hx0 hypos hq
    rw [hsqeq]
    refine ⟨fun hcontra => F32.noConfusion hcontra, fun z hz => ?_⟩
    have : sq = z := by
      have := F32.finite.injEq sq z ▸ hz
      simpa using this
    omega

set_option maxRecDepth 8000 in
/-- Axis bound for the downscale branch: if the target is below `2 ^ 23`
and the scale factor is finite, nonnegative and at most this axis's rounded
quotient whenever that quotient is finite, then the scaled-and-truncated
output does not exceed the target. -/
theorem fit_axis_le (w tw : ℕ) (f : F32) (hw : w < 2^32) (htw : tw < 2^23)
    (hf_nonneg : ∀ z, f = .finite z → 0 ≤ z)
    (hf_le : ∀ sq : Int,
      F32.div (F32.ofNat tw) (F32.ofNat w) = .finite sq →
      ∃ sf, f = .finite sf ∧ sf ≤ sq) :
    (F32.mul (F32.ofNat w) f).toU32 ≤ tw := by
  rcases Nat.eq_zero_or_pos w with hw0 | hw1
  · subst hw0
    have hz : F32.ofNat 0 = .finite 0 := rfl
    rw [hz, F32_mul_zero_toU32]
    exact Nat.zero_le tw
  · obtain ⟨sa, hsaeq, hsapos, hsalb, hsaub⟩ :=
      F32_ofNat_eq w hw1 (by omega)
    have htwexact : F32.ofNat tw = .finite ((tw:ℤ) * 2^149) :=
      F32_ofNat_exact tw (by omega)
    have hwQ1 : (1:ℚ) ≤ (w:ℚ) := by exact_mod_cast hw1
    have hwQub : (w:ℚ) ≤ 2^32 - 1 := by
      have h1 : w ≤ 4294967295 := by omega
      have h2 : (w:ℚ) ≤ 4294967295 := by exact_mod_cast h1
      linarith
    have htwQ : (tw:ℚ) ≤ 2^23 - 1 := by
      have h1 : tw ≤ 8388607 := by omega
      have h2 : (tw:ℚ) ≤ 8388607 := by exact_mod_cast h1
      linarith
    have hsa_lb148 : (2:ℚ)^148 ≤ (sa:ℚ) := by linarith [hsalb, hwQ1]
    have hsaQpos : (0:ℚ) < (sa:ℚ) := by exact_mod_cast hsapos
    have hdivpre : (((tw:ℤ) * 2^149 : ℤ):ℚ)/(sa:ℚ) ≤ (2:ℚ)^(126:ℤ) := by
      rw [div_le_iff hsaQpos]
      push_cast
      have h126 : ((2:ℚ))^((126:ℤ)) = 2^126 := by norm_num
      rw [h126]
      linarith [htwQ, hsa_lb148]
    obtain ⟨sq, hsqeq, hsq0, hsqlb, hsqub⟩ :=
      F32_div_finite ((tw:ℤ) * 2^149) sa (by positivity) hsapos hdivpre
    have hdiveq : F32.div (F32.ofNat tw) (F32.ofNat w) = .finite sq := by
      rw [htwexact, hsaeq]
      exact hsqeq
    obtain ⟨sf, hfeq, hsfle⟩ := hf_le sq hdiveq
    have hsf0 : 0 ≤ sf := hf_nonneg sf hfeq
    push_cast at hsqub
    have hsaub' : (sa:ℚ) ≤ 2^182 := by linarith [hsaub, hwQub]
    have hsqQ0 : (0:ℚ) ≤ (sq:ℚ) := by exact_mod_cast hsq0
    have hsqub' : (sq:ℚ) ≤ 2^174 := by
      have h1 : (sq:ℚ) * 2^148 ≤ (sq:ℚ) * sa :=
        mul_le_mul_of_nonneg_left hsa_lb148 hsqQ0
      linarith [h1, hsqub, htwQ, hsaub']
    have hsfQle : (sf:ℚ) ≤ (sq:ℚ) := by exact_mod_cast hsfle
    have hsf0Q : (0:ℚ) ≤ (sf:ℚ) := by exact_mod_cast hsf0
    have hprodpre : (sa:ℚ) * sf ≤ (2:ℚ)^400 := by
      have hmm := mul_le_mul hsaub' (le_trans hsfQle hsqub') hsf0Q
        (by norm_num : (0:ℚ) ≤ 2^182)
      have hpow : (2:ℚ)^182 * 2^174 ≤ (2:ℚ)^400 := by norm_num
      linarith
    obtain ⟨sp, hspeq, hsp0, hsplb, hspub⟩ := F32_mul_finite sa sf hsapos hsf0 hprodpre
    have hspQ : (sp:ℚ) < ((tw:ℚ) + 1) * 2^149 := by
      have huv : (sa:ℚ) * sf ≤ (sa:ℚ) * sq := by
        apply mul_le_mul_of_nonneg_left hsfQle (le_of_lt hsaQpos)
      have hvu : (sa:ℚ) * sq = (sq:ℚ) * sa := by ring
      linarith [hspub, huv, hvu, hsqub, hsaub', htwQ]
    have hspZ : sp < ((tw:ℤ) + 1) * 2^149 := by
      have hc : ((sp:ℤ):ℚ) < ((((tw:ℤ) + 1) * 2^149 : ℤ):ℚ) := by
        push_cast
        linarith [hspQ]
      exact_mod_cast hc
    have hsp32 : sp < 2^32 * 2^149 := by
      have htw1 : ((tw:ℤ) + 1) ≤ 2^23 := by omega
      have h2 : ((tw:ℤ) + 1) * 2^149 ≤ 2^23 * 2^149 :=
        mul_le_mul_of_nonneg_right htw1 (by positivity)
      omega
    rw [hsaeq, hfeq, hspeq]
    have hfl := F32_toU32_floor sp hsp0 hsp32
    have houtZ : ((F32.toU32 (.finite sp) : ℕ) : ℤ) ≤ (tw:ℤ) := by
      have h1 := hfl.1
      omega
    exact_mod_cast houtZ

set_option maxRecDepth 8000 in
set_option maxHeartbeats 1600000 in
/-- Per-axis estimates for the downscale branch: at scale `2 ^ 149`, the
truncated output is within `1/2^22` relative error plus two units of the
ideally scaled dimension `w * sf / 2 ^ 149`, and the scaled dimension is
bounded by `2 ^ 25`. -/
theorem fit_axis_estimates (w tw : ℕ) (sf : Int) (hw : w < 2^32) (htw : tw < 2^23)
    (hw1 : 1 ≤ w) (hsf0 : 0 ≤ sf)
    (hsfle : ∀ sq : Int, F32.div (F32.ofNat tw) (F32.ofNat w) = .finite sq → sf ≤ sq) :
    ((F32.mul (F32.ofNat w) (.finite sf)).toU32 : ℚ) * 2^149 - (w:ℚ) * sf ≤
      (w:ℚ) * sf / 2^22 + 2 * 2^149 ∧
    (w:ℚ) * sf - ((F32.mul (F32.ofNat w) (.finite sf)).toU32 : ℚ) * 2^149 ≤
      (w:ℚ) * sf / 2^22 + 2 * 2^149 ∧
    (w:ℚ) * sf ≤ 2^25 * 2^149 := by
  obtain ⟨sa, hsaeq, hsapos, hsalb, hsaub⟩ := F32_ofNat_eq w hw1 (by omega)
  have htwexact : F32.ofNat tw = .finite ((tw:ℤ) * 2^149) :=
    F32_ofNat_exact tw (by omega)
  have hwQ1 : (1:ℚ) ≤ (w:ℚ) := by exact_mod_cast hw1
  have hwQub : (w:ℚ) ≤ 2^32 - 1 := by
    have h1 : w ≤ 4294967295 := by omega
    have h2 : (w:ℚ) ≤ 4294967295 := by exact_mod_cast h1
    linarith
  have htwQ : (tw:ℚ) ≤ 2^23 - 1 := by
    have h1 : tw ≤ 8388607 := by omega
    have h2 : (tw:ℚ) ≤ 8388607 := by exact_mod_cast h1
    linarith
  have hsa_lb148 : (2:ℚ)^148 ≤ (sa:ℚ) := by linarith [hsalb, hwQ1]
  have hsaQpos : (0:ℚ) < (sa:ℚ) := by exact_mod_cast hsapos
  have hdivpre : (((tw:ℤ) * 2^149 : ℤ):ℚ)/(sa:ℚ) ≤ (2:ℚ)^(126:ℤ) := by
    rw [div_le_iff hsaQpos]
    push_cast
    have h126 : ((2:ℚ))^((126:ℤ)) = 2^126 := by norm_num
    rw [h126]
    linarith [htwQ, hsa_lb148]
  obtain ⟨sq, hsqeq, hsq0, hsqlb, hsqub⟩ :=
    F32_div_finite ((tw:ℤ) * 2^149) sa (by positivity) hsapos hdivpre
  have hdiveq : F32.div (F32.ofNat tw) (F32.ofNat w) = .finite sq := by
    rw [htwexact, hsaeq]
    exact hsqeq
  have hsfleq : sf ≤ sq := hsfle sq hdiveq
  push_cast at hsqub
  have hsaub' : (sa:ℚ) ≤ 2^182 := by linarith [hsaub, hwQub]
  have hsqQ0 : (0:ℚ) ≤ (sq:ℚ) := by exact_mod_cast hsq0
  have hsqub' : (sq:ℚ) ≤ 2^174 := by
    have h1 : (sq:ℚ) * 2^148 ≤ (sq:ℚ) * sa :=
      mul_le_mul_of_nonneg_left hsa_lb148 hsqQ0
    linarith [h1, hsqub, htwQ, hsaub']
  have hsfQle : (sf:ℚ) ≤ (sq:ℚ) := by exact_mod_cast hsfleq
  have hsf0Q : (0:ℚ) ≤ (sf:ℚ) := by exact_mod_cast hsf0
  have hsf174 : (sf:ℚ) ≤ 2^174 := le_trans hsfQle hsqub'
  have hprodpre : (sa:ℚ) * sf ≤ (2:ℚ)^400 := by
    have hmm := mul_le_mul hsaub' hsf174 hsf0Q (by norm_num : (0:ℚ) ≤ 2^182)
    have hpow : (2:ℚ)^182 * 2^174 ≤ (2:ℚ)^400 := by norm_num
    linarith
  obtain ⟨sp, hspeq, hsp0, hsplb, hspub⟩ := F32_mul_finite sa sf hsapos hsf0 hprodpre
  -- products of the conversion bounds with the scale factor
  have hP1 : (sa:ℚ) * sf ≤ ((w:ℚ) * 2^149 + (w:ℚ) * 2^149/2^24 + 1/2) * sf :=
    mul_le_mul_of_nonneg_right hsaub hsf0Q
  have hP2 : ((w:ℚ) * 2^149 - (w:ℚ) * 2^149/2^24 - 1/2) * sf ≤ (sa:ℚ) * sf :=
    mul_le_mul_of_nonneg_right hsalb hsf0Q
  have hP3 : (sa:ℚ) * sf ≤ (sa:ℚ) * sq :=
    mul_le_mul_of_nonneg_left hsfQle (le_of_lt hsaQpos)
  have hP4 : (sa:ℚ) * sq = (sq:ℚ) * sa := by ring
  -- scaled-dimension bound
  have hwsf : (w:ℚ) * sf ≤ 2^25 * 2^149 := by
    nlinarith [hP2, hP3, hP4, hsqub, hsaub', hsf174, htwQ, hsf0Q]
  -- the product fits well below the clamp
  have hspQ32 : (sp:ℚ) < 2^32 * 2^149 := by
    nlinarith [hspub, hP1, hwsf, hsf174, hwQub, hsf0Q]
  have hsp32 : sp < 2^32 * 2^149 := by
    have hc : ((sp:ℤ):ℚ) < (((2^32 * 2^149 : ℤ)):ℚ) := by
      push_cast
      linarith [hspQ32]
    exact_mod_cast hc
  have hfl := F32_toU32_floor sp hsp0 hsp32
  have hF1 : ((F32.toU32 (.finite sp) : ℕ):ℚ) * 2^149 ≤ (sp:ℚ) := by
    exact_mod_cast hfl.1
  have hF2 : (sp:ℚ) < (((F32.toU32 (.finite sp) : ℕ):ℚ) + 1) * 2^149 := by
    exact_mod_cast hfl.2
  rw [hsaeq, hspeq]
  refine ⟨?_, ?_, hwsf⟩
  · nlinarith [hF1, hspub, hP1, hsf174, hwsf, hsf0Q]
  · nlinarith [hF2, hsplb, hP2, hsf174, hwsf, hsf0Q]

/-- `f32::min` preserves nonnegativity of finite results. -/
theorem F32_fmin_nonneg (x y : F32)
    (hx : ∀ z, x = .finite z → 0 ≤ z) (hy : ∀ z, y = .finite z → 0 ≤ z) :
    ∀ z, F32.fmin x y = .finite z → 0 ≤ z := by
  intro z hz
  cases x with
  | nan =>
    cases y with
    | nan => exact F32.noConfusion hz
    | inf t => exact F32.noConfusion hz
    | finite b =>
      rw [show F32.fmin .nan (.finite b) = .finite b from rfl] at hz
      exact hy z hz
  | inf s =>
    cases s with
    | false =>
      cases y with
      | nan => exact F32.noConfusion hz
      | inf t => exact F32.noConfusion hz
      | finite b =>
        rw [show F32.fmin (.inf false) (.finite b) = .finite b from rfl] at hz
        exact hy z hz
    | true =>
      have ht : F32.fmin (.inf true) y = .inf true := by cases y <;> rfl
      rw [ht] at hz
      exact F32.noConfusion hz
  | finite a =>
    cases y with
    | nan =>
      rw [show F32.fmin (.finite a) .nan = .finite a from rfl] at hz
      exact hx z hz
    | inf t =>
      cases t with
      | false =>
        rw [show F32.fmin (.finite a) (.inf false) = .finite a from rfl] at hz
        exact hx z hz
      | true =>
        rw [show F32.fmin (.finite a) (.inf true) = .inf true from rfl] at hz
        exact F32.noConfusion hz
    | finite b =>
      rw [show F32.fmin (.finite a) (.finite b) = .finite (min a b) from rfl] at hz
      injection hz with hz2
      rw [← hz2]
      exact le_min (hx a rfl) (hy b rfl)

set_option maxRecDepth 8000 in
/-- With a positive denominator dimension, the `f32` target/current ratio in
`calculate_fit_dims` is a nonnegative finite value. -/
theorem fit_quot_finite (tw w : ℕ) (htw : tw < 2^23) (hw1 : 1 ≤ w) (hw : w < 2^32) :
    ∃ sq : Int, F32.div (F32.ofNat tw) (F32.ofNat w) = .finite sq ∧ 0 ≤ sq := by
  obtain ⟨sa, hsaeq, hsapos, hsalb, hsaub⟩ := F32_ofNat_eq w hw1 (by omega)
  have htwexact : F32.ofNat tw = .finite ((tw:ℤ) * 2^149) :=
    F32_ofNat_exact tw (by omega)
  have hwQ1 : (1:ℚ) ≤ (w:ℚ) := by exact_mod_cast hw1
  have htwQ : (tw:ℚ) ≤ 2^23 - 1 := by
    have h1 : tw ≤ 8388607 := by omega
    have h2 : (tw:ℚ) ≤ 8388607 := by exact_mod_cast h1
    linarith
  have hsa_lb148 : (2:ℚ)^148 ≤ (sa:ℚ) := by linarith [hsalb, hwQ1]
  have hsaQpos : (0:ℚ) < (sa:ℚ) := by exact_mod_cast hsapos
  have hdivpre : (((tw:ℤ) * 2^149 : ℤ):ℚ)/(sa:ℚ) ≤ (2:ℚ)^(126:ℤ) := by
    rw [div_le_iff hsaQpos]
    push_cast
    have h126 : ((2:ℚ))^((126:ℤ)) = 2^126 := by norm_num
    rw [h126]
    linarith [htwQ, hsa_lb148]
  obtain ⟨sq, hsqeq, hsq0, -, -⟩ :=
    F32_div_finite ((tw:ℤ) * 2^149) sa (by positivity) hsapos hdivpre
  refine ⟨sq, ?_, hsq0⟩
  rw [htwexact, hsaeq]
  exact hsqeq

set_option maxHeartbeats 1600000 in
/-- Aspect-ratio core: with positive dimensions the `f32` scale factor is a
single finite nonnegative value, and the two truncated outputs preserve the
aspect ratio up to `16 * (w + h)` in cross-multiplied form. -/
theorem fit_aspect_core (w h tw th : ℕ) (hw : w < 2^32) (hh : h < 2^32)
    (htw : tw < 2^23) (hth : th < 2^23) (hw1 : 1 ≤ w) (hh1 : 1 ≤ h) :
    ∃ sf : ℤ, 0 ≤ sf ∧
      F32.fmin (F32.div (F32.ofNat tw) (F32.ofNat w))
        (F32.div (F32.ofNat th) (F32.ofNat h)) = .finite sf ∧
      |((F32.mul (F32.ofNat w) (.finite sf)).toU32 : ℚ) * h -
        ((F32.mul (F32.ofNat h) (.finite sf)).toU32 : ℚ) * w| ≤ 16 * ((w:ℚ) + h) := by
  obtain ⟨sqw, hqw, hqw0⟩ := fit_quot_finite tw w htw hw1 hw
  obtain ⟨sqh, hqh, hqh0⟩ := fit_quot_finite th h hth hh1 hh
  refine ⟨min sqw sqh, le_min hqw0 hqh0, ?_, ?_⟩
  · rw [hqw, hqh]
    rfl
  · obtain ⟨hw_up, hw_lo, hwsf⟩ :=
      fit_axis_estimates w tw (min sqw sqh) hw htw hw1 (le_min hqw0 hqh0)
        (fun sq hsq => by
          rw [hqw] at hsq
          injection hsq with h2
          rw [← h2]
          exact min_le_left _ _)
    obtain ⟨hh_up, hh_lo, hhsf⟩ :=
      fit_axis_estimates h th (min sqw sqh) hh hth hh1 (le_min hqw0 hqh0)
        (fun sq hsq => by
          rw [hqh] at hsq
          injection hsq with h2
          rw [← h2]
          exact min_le_right _ _)
    have hwQ0 : (0:ℚ) ≤ (w:ℚ) := by positivity
    have hhQ0 : (0:ℚ) ≤ (h:ℚ) := by positivity
    have hA1 := mul_le_mul_of_nonneg_right hw_up hhQ0
    have hA2 := mul_le_mul_of_nonneg_right hw_lo hhQ0
    have hB1 := mul_le_mul_of_nonneg_right hh_up hwQ0
    have hB2 := mul_le_mul_of_nonneg_right hh_lo hwQ0
    have hC1 := mul_le_mul_of_nonneg_right hwsf hhQ0
    have hC2 := mul_le_mul_of_nonneg_right hhsf hwQ0
    rw [abs_le]
    constructor
    · nlinarith [hA2, hB1, hC1, hC2, hwQ0, hhQ0]
    · nlinarith [hA1, hB2, hC1, hC2, hwQ0, hhQ0]

set_option maxRecDepth 100000 in
/-- C8 counterexample: fitting a 16976164x1 frame into 16352788x1 is a
genuine downscale (the target width is smaller), yet the computed output
width is 16352789, one more than the target width - the f32-rounded scale
factor slightly exceeds the exact ratio and the product truncates above the
target. -/
theorem claim_C8_counterexample :
    16352788 < 16976164 ∧
    (calculate_fit_dims (16976164, 1) (16352788, 1)).1 = 16352789 :=
  ⟨by norm_num, by decide⟩

set_option maxRecDepth 100000 in
set_option maxHeartbeats 1600000 in
/-- C8 (amended): `calculate_fit_dims`, computed in (modelled) f32
arithmetic with truncation to u32, fits a 1920x1080 frame into 800x600 as
800x450; and for all dimensions below 2^32 and fit targets below 2^23 the
output never exceeds the target box, and the aspect ratio is preserved up
to 16 (w + h) in cross-multiplied form (at most a few truncation errors). -/
theorem claim_C8_fit_amended :
    calculate_fit_dims (1920, 1080) (800, 600) = (800, 450) ∧
    (∀ w h tw th : ℕ, w < 2^32 → h < 2^32 → tw < 2^23 → th < 2^23 →
      ((calculate_fit_dims (w, h) (tw, th)).1 ≤ tw ∧
       (calculate_fit_dims (w, h) (tw, th)).2 ≤ th) ∧
      |((calculate_fit_dims (w, h) (tw, th)).1 : ℚ) * h -
        ((calculate_fit_dims (w, h) (tw, th)).2 : ℚ) * w| ≤ 16 * ((w:ℚ) + h)) := by
  constructor
  · decide
  · intro w h tw th hw hh htw hth
    have hred : calculate_fit_dims (w, h) (tw, th) =
        (if w ≤ tw ∧ h ≤ th then (w, h)
         else
           (F32.toU32 (F32.mul (F32.ofNat w)
              (F32.fmin (F32.div (F32.ofNat tw) (F32.ofNat w))
                (F32.div (F32.ofNat th) (F32.ofNat h)))),
            F32.toU32 (F32.mul (F32.ofNat h)
              (F32.fmin (F32.div (F32.ofNat tw) (F32.ofNat w))
                (F32.div (F32.ofNat th) (F32.ofNat h)))))) := rfl
    by_cases hbr : w ≤ tw ∧ h ≤ th
    · rw [hred, if_pos hbr]
      refine ⟨⟨hbr.1, hbr.2⟩, ?_⟩
      show |((w:ℚ)) * h - ((h:ℚ)) * w| ≤ 16 * ((w:ℚ) + h)
      have he : ((w:ℚ)) * h - ((h:ℚ)) * w = 0 := by ring
      rw [he, abs_zero]
      positivity
    · rw [hred, if_neg hbr]
      have hshape_w := F32_div_ofNat_shape tw w (by omega) hw
      have hshape_h := F32_div_ofNat_shape th h (by omega) hh
      refine ⟨⟨?_, ?_⟩, ?_⟩
      · exact fit_axis_le w tw _ hw htw
          (F32_fmin_nonneg _ _ hshape_w.2 hshape_h.2)
          (fun sq hsq => by
            rw [hsq]
            obtain ⟨sf, hfeq, hsfle, -, -⟩ := F32_fmin_finite_left sq _ hshape_h.1
            exact ⟨sf, hfeq, hsfle⟩)
      · exact fit_axis_le h th _ hh hth
          (F32_fmin_nonneg _ _ hshape_w.2 hshape_h.2)
          (fun sq hsq => by
            rw [hsq]
            obtain ⟨sf, hfeq, hsfle, -, -⟩ :=
              F32_fmin_finite_right _ sq hshape_w.1 (hshape_h.2 sq hsq)
            exact ⟨sf, hfeq, hsfle⟩)
      · rcases Nat.eq_zero_or_pos w with hw0 | hw1
        · subst hw0
          rw [show F32.ofNat 0 = F32.finite 0 from rfl, F32_mul_zero_toU32]
          simp only [Nat.cast_zero, zero_mul, mul_zero, sub_zero, abs_zero, zero_add]
          positivity
        · rcases Nat.eq_zero_or_pos h with hh0 | hh1
          · subst hh0
            rw [show F32.ofNat 0 = F32.finite 0 from rfl, F32_mul_zero_toU32]
            simp only [Nat.cast_zero, zero_mul, mul_zero, sub_zero, zero_sub,
              abs_neg, abs_zero, add_zero]
            positivity
          · obtain ⟨sf, hsf0, hfeq, hbound⟩ :=
              fit_aspect_core w h tw th hw hh htw hth hw1 hh1
            rw [hfeq]
            exact hbound

set_option maxRecDepth 1000 in
/-- Witness for the amended C8 theorem at 1920x1080 fit into 800x600. -/
theorem claim_C8_witness :
    ((calculate_fit_dims (1920, 1080) (800, 600)).1 ≤ 800 ∧
     (calculate_fit_dims (1920, 1080) (800, 600)).2 ≤ 600) ∧
    |((calculate_fit_dims (1920, 1080) (800, 600)).1 : ℚ) * ((1080:ℕ):ℚ) -
      ((calculate_fit_dims (1920, 1080) (800, 600)).2 : ℚ) * ((1920:ℕ):ℚ)| ≤
      16 * (((1920:ℕ):ℚ) + ((1080:ℕ):ℚ)) :=
  claim_C8_fit_amended.2 1920 1080 800 600 (by norm_num) (by norm_num)
    (by norm_num) (by norm_num)

end OddityVideo
